import Mathlib

/-!
Shallow embedding, in Lean 4, of the agent turn engine of the MCPLink
repository (packages/core): the `Agent` iteration loop (`Agent.chatStream`),
the `PromptBasedAgent` tag-parsing loop and its tool-call decoder, the
immediate-result matcher, and the model-mode selector.

Conventions of the embedding:
* JavaScript strings are modelled as `List Char` (`Str`).
* `JSON.parse` is modelled by an executable recursive-descent parser
  (`jsonParse`) following the JSON grammar; JavaScript numbers are modelled
  exactly as normalized decimal values `m * 10 ^ e`.
* The external collaborators are abstracted: the model-stream collaborator
  becomes a script `Nat → List Chunk` (one chunk list per `streamText`
  invocation) and the tool collaborator becomes a function
  `Str → Json → Except Str Json` (`MCPManager.callTool`, which may reject).
* Event timestamps (`Date.now()`) and the running message list are not
  observable in the emitted event stream and are not modelled; events are
  modelled with their payload data only.
-/

set_option maxRecDepth 10000
set_option linter.unnecessarySeqFocus false

abbrev Str := List Char

/-- The double-quote character. -/
def qD : Char := Char.ofNat 34

/-- The single-quote character. -/
def qS : Char := Char.ofNat 39

/-- The left-brace character. -/
def lbrace : Char := Char.ofNat 123

/-- The right-brace character. -/
def rbrace : Char := Char.ofNat 125

/-- The backslash character. -/
def bslash : Char := Char.ofNat 92

/-- JSON whitespace: space, tab, line feed, carriage return. -/
def jsonWs (c : Char) : Bool :=
  c == ' ' || c == Char.ofNat 9 || c == Char.ofNat 10 || c == Char.ofNat 13

/-- JavaScript whitespace as used by `String.prototype.trim` and the regex
class `\s` (restricted to the characters that can occur in this
development: ASCII whitespace plus no-break space and BOM). -/
def jsWs (c : Char) : Bool :=
  c == ' ' || c == Char.ofNat 9 || c == Char.ofNat 10 || c == Char.ofNat 11 ||
  c == Char.ofNat 12 || c == Char.ofNat 13 || c == Char.ofNat 160 || c == Char.ofNat 65279

/-- JavaScript `String.prototype.trimStart`. -/
def jsTrimStart (s : Str) : Str := s.dropWhile jsWs

/-- JavaScript `String.prototype.trim`. -/
def jsTrim (s : Str) : Str := ((s.dropWhile jsWs).reverse.dropWhile jsWs).reverse

/-- ASCII lower-casing, modelling case-insensitive (`/i`) regex matching
for the ASCII patterns appearing in the sources. -/
def lowerChar (c : Char) : Char :=
  if 'A' ≤ c && c ≤ 'Z' then Char.ofNat (c.toNat + 32) else c

/-- Lower-case a string. -/
def lowerStr (s : Str) : Str := s.map lowerChar

/-- Does `pat` occur as a prefix of `hay`? -/
def hasPfx (hay pat : Str) : Bool :=
  match pat, hay with
  | [], _ => true
  | _ :: _, [] => false
  | p :: ps, h :: hs => h == p && hasPfx hs ps

/-- Case-insensitive prefix test. -/
def hasPfxCI (hay pat : Str) : Bool := hasPfx (lowerStr hay) (lowerStr pat)

/-- Index of the first occurrence of `needle` in `hay`
(JavaScript `String.prototype.indexOf`), `none` when absent. -/
def subIdx (needle : Str) : Str → Option Nat
  | [] => if hasPfx [] needle then some 0 else none
  | c :: cs => if hasPfx (c :: cs) needle then some 0 else (subIdx needle cs).map (· + 1)

/-- Case-insensitive first-occurrence index (leftmost `/i` regex literal). -/
def subIdxCI (needle hay : Str) : Option Nat := subIdx (lowerStr needle) (lowerStr hay)

/-- Is `c` a decimal digit? -/
def isDigitC (c : Char) : Bool := '0' ≤ c && c ≤ '9'

/-- Is `c` a hexadecimal digit? -/
def isHexC (c : Char) : Bool :=
  isDigitC c || ('a' ≤ c && c ≤ 'f') || ('A' ≤ c && c ≤ 'F')

/-- Value of a hexadecimal digit. -/
def hexVal (c : Char) : Nat :=
  if isDigitC c then c.toNat - 48
  else if 'a' ≤ c && c ≤ 'f' then c.toNat - 87
  else c.toNat - 55

/-- Numeric value of a digit string. -/
def natOfDigits (ds : List Char) : Nat :=
  ds.foldl (fun a c => a * 10 + (c.toNat - 48)) 0

/-- JSON values.  JavaScript numbers are modelled as exact normalized
decimals `man * 10 ^ exp10` (with `man` not divisible by 10 unless zero);
object fields are kept in insertion order with duplicate keys already
resolved (later assignment wins, as in `JSON.parse`). -/
inductive Json where
  | null
  | bool (b : Bool)
  | num (man : Int) (exp10 : Int)
  | str (s : Str)
  | arr (elems : List Json)
  | obj (fields : List (Str × Json))

/-- Normalization loop for decimal mantissas. -/
def normLoop : Nat → Int → Int → Json
  | 0, m, e => .num m e
  | f + 1, m, e => if m % 10 == 0 then normLoop f (m / 10) (e + 1) else .num m e

/-- Build a normalized JSON number from mantissa and decimal exponent. -/
def normNum (m : Int) (e : Int) : Json :=
  if m == 0 then .num 0 0 else normLoop m.natAbs m e

/-- Insert a field into an object field list, JavaScript-style: an existing
key keeps its position and receives the new value; a fresh key is appended. -/
def fieldsIns (fs : List (Str × Json)) (k : Str) (v : Json) : List (Str × Json) :=
  if fs.any (fun p => p.1 == k) then fs.map (fun p => if p.1 == k then (k, v) else p)
  else fs ++ [(k, v)]

/-- Resolve duplicate keys of a parsed field list (later value wins). -/
def dedupeFields (fs : List (Str × Json)) : List (Str × Json) :=
  fs.foldl (fun acc p => fieldsIns acc p.1 p.2) []

/-- Skip JSON whitespace. -/
def skipJWs (s : Str) : Str := s.dropWhile jsonWs

/-- Parse the body of a JSON string (after the opening quote), returning the
decoded characters and the rest of the input after the closing quote. -/
def parseJStr : Nat → Str → Option (Str × Str)
  | 0, _ => none
  | fuel + 1, s =>
    match s with
    | [] => none
    | c :: cs =>
      if c == qD then some ([], cs)
      else if c == bslash then
        match cs with
        | [] => none
        | e :: es =>
          if e == qD then (parseJStr fuel es).map (fun p => (qD :: p.1, p.2))
          else if e == bslash then (parseJStr fuel es).map (fun p => (bslash :: p.1, p.2))
          else if e == '/' then (parseJStr fuel es).map (fun p => ('/' :: p.1, p.2))
          else if e == 'b' then (parseJStr fuel es).map (fun p => (Char.ofNat 8 :: p.1, p.2))
          else if e == 'f' then (parseJStr fuel es).map (fun p => (Char.ofNat 12 :: p.1, p.2))
          else if e == 'n' then (parseJStr fuel es).map (fun p => (Char.ofNat 10 :: p.1, p.2))
          else if e == 'r' then (parseJStr fuel es).map (fun p => (Char.ofNat 13 :: p.1, p.2))
          else if e == 't' then (parseJStr fuel es).map (fun p => (Char.ofNat 9 :: p.1, p.2))
          else if e == 'u' then
            match es with
            | h1 :: h2 :: h3 :: h4 :: rest =>
              if isHexC h1 && isHexC h2 && isHexC h3 && isHexC h4 then
                (parseJStr fuel rest).map (fun p =>
                  (Char.ofNat (hexVal h1 * 4096 + hexVal h2 * 256 + hexVal h3 * 16 + hexVal h4)
                    :: p.1, p.2))
              else none
            | _ => none
          else none
      else if c.toNat < 32 then none
      else (parseJStr fuel cs).map (fun p => (c :: p.1, p.2))

/-- Parse a JSON number (grammar `-? int frac? exp?`). -/
def parseJNum (s : Str) : Option (Json × Str) :=
  let p := match s with
    | c :: cs => if c == '-' then (true, cs) else (false, s)
    | [] => (false, s)
  let neg := p.1
  let s1 := p.2
  match s1 with
  | [] => none
  | c :: cs =>
    if ¬ isDigitC c then none
    else
      let ipRest : List Char × Str :=
        if c == '0' then ([c], cs) else (s1.takeWhile isDigitC, s1.dropWhile isDigitC)
      let ip := ipRest.1
      let s2 := ipRest.2
      let fracStep : Option (List Char × Str) :=
        match s2 with
        | d :: ds =>
          if d == '.' then
            let fd := ds.takeWhile isDigitC
            if fd.isEmpty then none else some (fd, ds.dropWhile isDigitC)
          else some ([], s2)
        | [] => some ([], s2)
      match fracStep with
      | none => none
      | some (fd, s3) =>
        let expStep : Option (Int × Str) :=
          match s3 with
          | e :: es =>
            if e == 'e' || e == 'E' then
              let q := match es with
                | g :: gs =>
                  if g == '-' then (true, gs)
                  else if g == '+' then (false, gs)
                  else (false, es)
                | [] => (false, es)
              let xd := q.2.takeWhile isDigitC
              if xd.isEmpty then none
              else
                let xv : Int := Int.ofNat (natOfDigits xd)
                some (if q.1 then -xv else xv, q.2.dropWhile isDigitC)
            else some (0, s3)
          | [] => some (0, s3)
        match expStep with
        | none => none
        | some (ex, s4) =>
          let mantNat : Nat := natOfDigits (ip ++ fd)
          let mant : Int := if neg then -(Int.ofNat mantNat) else Int.ofNat mantNat
          some (normNum mant (ex - Int.ofNat fd.length), s4)

mutual

/-- Parse a JSON value. -/
def parseJVal : Nat → Str → Option (Json × Str)
  | 0, _ => none
  | fuel + 1, s =>
    match s with
    | [] => none
    | c :: cs =>
      if c == qD then (parseJStr fuel cs).map (fun p => (Json.str p.1, p.2))
      else if c == '[' then
        let s1 := skipJWs cs
        match s1 with
        | d :: ds =>
          if d == ']' then some (Json.arr [], ds)
          else (parseJElems fuel s1).map (fun p => (Json.arr p.1, p.2))
        | [] => none
      else if c == lbrace then
        let s1 := skipJWs cs
        match s1 with
        | d :: ds =>
          if d == rbrace then some (Json.obj [], ds)
          else (parseJFields fuel s1).map (fun p => (Json.obj (dedupeFields p.1), p.2))
        | [] => none
      else if hasPfx s ('t' :: 'r' :: 'u' :: 'e' :: []) then some (Json.bool true, s.drop 4)
      else if hasPfx s ('f' :: 'a' :: 'l' :: 's' :: 'e' :: []) then some (Json.bool false, s.drop 5)
      else if hasPfx s ('n' :: 'u' :: 'l' :: 'l' :: []) then some (Json.null, s.drop 4)
      else parseJNum s

/-- Parse the elements of a nonempty JSON array, up to and including `]`. -/
def parseJElems : Nat → Str → Option (List Json × Str)
  | 0, _ => none
  | fuel + 1, s =>
    match parseJVal fuel s with
    | none => none
    | some (v, r) =>
      match skipJWs r with
      | c :: cs =>
        if c == ',' then (parseJElems fuel (skipJWs cs)).map (fun p => (v :: p.1, p.2))
        else if c == ']' then some ([v], cs)
        else none
      | [] => none

/-- Parse the fields of a nonempty JSON object, up to and including the
closing brace. -/
def parseJFields : Nat → Str → Option (List (Str × Json) × Str)
  | 0, _ => none
  | fuel + 1, s =>
    match s with
    | [] => none
    | c :: cs =>
      if c == qD then
        match parseJStr fuel cs with
        | none => none
        | some (k, r) =>
          match skipJWs r with
          | c2 :: cs2 =>
            if c2 == ':' then
              match parseJVal fuel (skipJWs cs2) with
              | none => none
              | some (v, r2) =>
                match skipJWs r2 with
                | c3 :: cs3 =>
                  if c3 == ',' then
                    (parseJFields fuel (skipJWs cs3)).map (fun p => ((k, v) :: p.1, p.2))
                  else if c3 == rbrace then some ([(k, v)], cs3)
                  else none
                | [] => none
            else none
          | [] => none
      else none

end

/-- Model of `JSON.parse`: parse a complete JSON document, allowing
surrounding whitespace only. -/
def jsonParse (s : Str) : Option Json :=
  match parseJVal (2 * s.length + 8) (skipJWs s) with
  | some (v, r) => if (skipJWs r).isEmpty then some v else none
  | none => none

/-- JavaScript truthiness of a JSON value. -/
def jsTruthy : Json → Bool
  | .null => false
  | .bool b => b
  | .num m _ => m != 0
  | .str s => !s.isEmpty
  | .arr _ => true
  | .obj _ => true

/-- Is `k` a canonical array index string (`"0"`, `"1"`, ...)? -/
def canonIdx (k : Str) : Option Nat :=
  match k with
  | [] => none
  | [c] => if isDigitC c then some (c.toNat - 48) else none
  | c :: cs =>
    if c == '0' then none
    else if (c :: cs).all isDigitC then some (natOfDigits (c :: cs)) else none

/-- JavaScript property access `v[k]`, returning `none` for `undefined`.
Plain objects look the key up; arrays accept canonical numeric indices;
primitives have none of the accessed properties. -/
def jsGetField : Json → Str → Option Json
  | .obj fs, k => (fs.find? (fun p => p.1 == k)).map (·.2)
  | .arr es, k => match canonIdx k with | some i => es.get? i | none => none
  | _, _ => none

/-- JavaScript strict equality `===` between a value taken from a result
object and a configured matcher value.  Primitives compare structurally;
objects and arrays compare by reference, and a configured matcher value is
never reference-identical to a freshly produced tool-result field, so the
composite cases are `false`. -/
def jsStrictEq : Json → Json → Bool
  | .null, .null => true
  | .bool a, .bool b => a == b
  | .num m1 e1, .num m2 e2 => m1 == m2 && e1 == e2
  | .str a, .str b => a == b
  | _, _ => false

/-- An immediate-result matcher is a partial-object pattern
(`Record<string, unknown>`, iterated with `Object.entries`). -/
abbrev Matcher := List (Str × Json)

/-- Does the result object satisfy one matcher (every key present with a
strictly equal value)? -/
def matchOne (robj : Json) (m : Matcher) : Bool :=
  m.all (fun kv =>
    match jsGetField robj kv.1 with
    | some v => jsStrictEq v kv.2
    | none => false)

/-- Coerce a tool result to the object the matchers are tested against:
a string result is `JSON.parse`d and kept only when the parse yields an
object (arrays included, `null` excluded); a native object or array is used
directly; any other value cannot match (`Agent.matchImmediateResult`). -/
def toResultObj (result : Json) : Option Json :=
  match result with
  | .str s =>
    match jsonParse s with
    | some (.obj fs) => some (.obj fs)
    | some (.arr es) => some (.arr es)
    | _ => none
  | .obj fs => some (.obj fs)
  | .arr es => some (.arr es)
  | _ => none

/-- Model of `Agent.matchImmediateResult`: with no configured matchers the
check is skipped; otherwise the result is coerced to an object and tested
against the matchers in order. -/
def matchImmediateResult (matchers : List Matcher) (result : Json) : Bool :=
  if matchers.isEmpty then false
  else
    match toResultObj result with
    | none => false
    | some r => matchers.any (matchOne r)

/-- A decoded tool call (`PromptBasedAgent`: `{name, arguments}`). -/
structure PToolCall where
  name : Str
  args : Json

/-- Extract a tool call from a parsed JSON value, modelling
`json.name && typeof json.name === 'string'` (an absent, non-string, or
empty-string `name` yields no call) and `json.arguments || {}` (a falsy
`arguments` value is replaced by the empty object). -/
def toolCallOfJson (j : Json) : Option PToolCall :=
  match jsGetField j "name".toList with
  | some (.str s) =>
    if s.isEmpty then none
    else
      let args := match jsGetField j "arguments".toList with
        | some a => if jsTruthy a then a else Json.obj []
        | none => Json.obj []
      some ⟨s, args⟩
  | _ => none

/-- Replace every single quote by a double quote
(`jsonStr.replace(/'/g, '"')`). -/
def fixQuotes (s : Str) : Str := s.map (fun c => if c == qS then qD else c)

/-- Second decoding strategy of `PromptBasedAgent.tryParseToolCallJson`:
normalize quote characters and parse again.  A parse producing `null` makes
the subsequent property access throw inside the inner `try`, which is
caught, so the overall outcome is `none`. -/
def tryQuoteFix (s : Str) : Option PToolCall :=
  match jsonParse (fixQuotes s) with
  | some Json.null => none
  | some j => toolCallOfJson j
  | none => none

/-- Model of `PromptBasedAgent.tryParseToolCallJson`: parse the trimmed
span as JSON and extract `name`/`arguments`; when the parse throws (or the
parsed value is `null`, whose property access throws inside the same
`try`), retry once with single quotes normalized to double quotes. -/
def tryParseToolCallJson (s : Str) : Option PToolCall :=
  match jsonParse (jsTrim s) with
  | some Json.null => tryQuoteFix s
  | some j => toolCallOfJson j
  | none => tryQuoteFix s

/-- Captured group of the `<tool_call>…</tool_call>` regex of
`PromptBasedAgent.parseToolCall`: the span between the first
(case-insensitive) opening tag and the first closing tag after it, with
surrounding whitespace stripped by the greedy `\s*` borders. -/
def toolCallTagSpan (text : Str) : Option Str :=
  match subIdxCI "<tool_call>".toList text with
  | none => none
  | some i =>
    let rest := text.drop (i + 11)
    match subIdxCI "</tool_call>".toList rest with
    | none => none
    | some j => some (jsTrim (rest.take j))

/-- Does the rest of a fenced block close correctly after a candidate
closing brace (`\s*\n?\s*` followed by a fence)? -/
def fenceCloseOk (r : Str) : Bool := hasPfx (r.dropWhile jsWs) "```".toList

/-- Lazy brace group of the code-fence regex: the shortest prefix
`{ … }` of `s` whose closing brace is followed by whitespace and a closing
fence.  Returns the group and the characters consumed. -/
def lazyFenceGroup : Str → Str → Option Str
  | acc, c :: cs =>
    if c == rbrace && fenceCloseOk cs then some ((acc ++ [c]))
    else lazyFenceGroup (acc ++ [c]) cs
  | _, [] => none

/-- Body of the code-fence regex after the optional `json` tag: skip
whitespace, require an opening brace, and take the lazy group. -/
def fenceBody (s : Str) : Option Str :=
  match s.dropWhile jsWs with
  | c :: cs => if c == lbrace then lazyFenceGroup [] (c :: cs) else none
  | [] => none

/-- Attempt the code-fence regex right after an opening fence, with the
greedy optional `json` tag tried first and given up on failure. -/
def fenceTryAt (after : Str) : Option Str :=
  if hasPfxCI after "json".toList then
    match fenceBody (after.drop 4) with
    | some g => some g
    | none => fenceBody after
  else fenceBody after

/-- Leftmost match of the ```` ```(?:json)?\s*\n?\s*(\{[\s\S]*?\})\s*\n?\s*``` ````
regex of `PromptBasedAgent.parseToolCall`, returning the captured brace
group. -/
def codeBlockSpan : Str → Option Str
  | [] => none
  | c :: cs =>
    if hasPfx (c :: cs) "```".toList then
      match fenceTryAt ((c :: cs).drop 3) with
      | some g => some g
      | none => codeBlockSpan cs
    else codeBlockSpan cs

/-- Lazy inner-brace group of the bare-JSON regex: consumed length of the
shortest `{ … }` whose closing brace is followed by whitespace and a final
closing brace. -/
def lazyBareGroup : Nat → Str → Option Nat
  | n, c :: cs =>
    if c == rbrace && hasPfx (cs.dropWhile jsWs) [rbrace] then some (n + 1)
    else lazyBareGroup (n + 1) cs
  | _, [] => none

/-- Attempt the bare-JSON tool-call regex at the start of `s`, returning the
length of the matched text
(`\{\s*"name"\s*:\s*"[^"]+"\s*,\s*"arguments"\s*:\s*\{[\s\S]*?\}\s*\}`). -/
def bareTryAt (s : Str) : Option Nat :=
  match s with
  | [] => none
  | c :: cs =>
    if c != lbrace then none
    else
      let r1 := cs.dropWhile jsWs
      if ¬ hasPfxCI r1 (qD :: 'n' :: 'a' :: 'm' :: 'e' :: qD :: []) then none
      else
        let r2 := (r1.drop 6).dropWhile jsWs
        match r2 with
        | c2 :: cs2 =>
          if c2 != ':' then none
          else
            let r3 := cs2.dropWhile jsWs
            match r3 with
            | c3 :: cs3 =>
              if c3 != qD then none
              else
                let nm := cs3.takeWhile (fun ch => ch != qD)
                if nm.isEmpty then none
                else
                  match cs3.drop nm.length with
                  | c4 :: cs4 =>
                    if c4 != qD then none
                    else
                      let r5 := cs4.dropWhile jsWs
                      match r5 with
                      | c5 :: cs5 =>
                        if c5 != ',' then none
                        else
                          let r6 := cs5.dropWhile jsWs
                          if ¬ hasPfxCI r6
                              (qD :: 'a' :: 'r' :: 'g' :: 'u' :: 'm' :: 'e' :: 'n' :: 't' ::
                                's' :: qD :: []) then none
                          else
                            let r7 := (r6.drop 11).dropWhile jsWs
                            match r7 with
                            | c7 :: cs7 =>
                              if c7 != ':' then none
                              else
                                let r8 := cs7.dropWhile jsWs
                                match r8 with
                                | c8 :: cs8 =>
                                  if c8 != lbrace then none
                                  else
                                    match lazyBareGroup 0 cs8 with
                                    | none => none
                                    | some inner =>
                                      let r9 := (cs8.drop inner).dropWhile jsWs
                                      match r9 with
                                      | c9 :: _ =>
                                        if c9 == rbrace then
                                          some (s.length - r9.length + 1)
                                        else none
                                      | [] => none
                                | [] => none
                            | [] => none
                      | [] => none
                  | [] => none
            | [] => none
        | [] => none

/-- Leftmost match of the bare-JSON tool-call regex, returning the matched
text. -/
def bareJsonSpan : Str → Option Str
  | [] => none
  | c :: cs =>
    match bareTryAt (c :: cs) with
    | some n => some ((c :: cs).take n)
    | none => bareJsonSpan cs

/-- Third strategy of `PromptBasedAgent.parseToolCall`: bare JSON. -/
def parseToolCallStep3 (text : Str) : Option PToolCall :=
  match bareJsonSpan text with
  | some span => tryParseToolCallJson span
  | none => none

/-- Second strategy of `PromptBasedAgent.parseToolCall`: fenced code block,
falling through to the bare-JSON strategy when absent or undecodable. -/
def parseToolCallStep2 (text : Str) : Option PToolCall :=
  match codeBlockSpan text with
  | some span =>
    match tryParseToolCallJson span with
    | some tc => some tc
    | none => parseToolCallStep3 text
  | none => parseToolCallStep3 text

/-- Model of `PromptBasedAgent.parseToolCall`: try the `<tool_call>` tag
format, then a fenced code block, then bare JSON; each strategy falls
through when its span is absent or does not decode. -/
def parseToolCall (text : Str) : Option PToolCall :=
  match toolCallTagSpan text with
  | some span =>
    match tryParseToolCallJson span with
    | some tc => some tc
    | none => parseToolCallStep2 text
  | none => parseToolCallStep2 text

/-- Events emitted by a turn (`MCPLinkEventType` with each event's payload;
timestamps and durations are real-time data and are not modelled). -/
inductive Ev where
  | thinkingStart
  | thinkingDelta (content : Str)
  | thinkingEnd
  | thinkingContent (content : Str)
  | textStart
  | textDelta (content : Str)
  | textEnd
  | toolCallStart (toolCallId toolName : Str) (toolArgs : Option Json)
  | toolCallDelta (toolCallId argsTextDelta : Str)
  | toolExecuting (toolCallId toolName : Str) (toolArgs : Json)
  | toolResult (toolCallId toolName : Str) (result : Json) (isError : Bool)
  | immediateResult (toolCallId toolName : Str) (result : Json)
  | iterationStart (iteration maxIterations : Nat)
  | iterationEnd (iteration : Nat)
  | complete (totalIterations : Nat)
  | error (message : Str)
  | todoStart (todoId todoTitle : Str)
  | todoItemAdd (todoId todoItemId todoItemContent : Str)
  | todoItemUpdate (todoId todoItemId todoItemStatus : Str) (todoItemResult : Option Str)

/-- Chunks of the model-stream collaborator (`stream.fullStream`). -/
inductive Chunk where
  | reasoning (textDelta : Str)
  | textDelta (textDelta : Str)
  | toolCall (toolCallId toolName : Str) (args : Json)
  | toolCallStreamingStart (toolCallId toolName : Str)
  | toolCallDelta (argsTextDelta : Str)
  | finish
  | error (message : Str)

/-- A collected tool call of one `Agent.chatStream` iteration. -/
structure AToolCall where
  toolCallId : Str
  toolName : Str
  args : Json

/-- The currently streaming tool call (`currentToolCall`). -/
structure ACurToolCall where
  toolCallId : Str
  toolName : Str
  argsText : Str

/-- Per-iteration stream-processing state of `Agent.chatStream`. -/
structure NAState where
  fullText : Str
  reasoningText : Str
  toolCalls : List AToolCall
  currentToolCall : Option ACurToolCall
  hasStartedText : Bool
  hasStartedReasoning : Bool
  sentToolCallStarts : List Str
  thinkBuffer : Str
  isInsideThinkTag : Bool
  textBuffer : Str

/-- Initial per-iteration stream state of `Agent.chatStream`. -/
def naInit : NAState :=
  ⟨[], [], [], none, false, false, [], [], false, []⟩

/-- Process one chunk of the model stream inside `Agent.chatStream`
(the `switch` over `stream.fullStream`), returning the events emitted for
it and the next state. -/
def naChunk (st : NAState) (c : Chunk) : List Ev × NAState :=
  match c with
  | .reasoning d =>
    ((if !st.hasStartedReasoning then [Ev.thinkingStart] else []) ++ [Ev.thinkingDelta d],
     { st with hasStartedReasoning := true, reasoningText := st.reasoningText ++ d })
  | .textDelta d =>
    let tb := st.textBuffer ++ d
    if !st.isInsideThinkTag then
      match subIdxCI "<think>".toList tb with
      | some idx =>
        let beforeThink := tb.take idx
        let emitBefore := !(jsTrim beforeThink).isEmpty
        let evs1 :=
          if emitBefore then
            (if !st.hasStartedText then [Ev.textStart] else []) ++ [Ev.textDelta beforeThink]
          else []
        ((evs1 ++ if !st.hasStartedReasoning then [Ev.thinkingStart] else []),
         { st with
            hasStartedText := st.hasStartedText || emitBefore,
            fullText := if emitBefore then st.fullText ++ beforeThink else st.fullText,
            hasStartedReasoning := true,
            isInsideThinkTag := true,
            textBuffer := tb.drop (idx + 7),
            thinkBuffer := [] })
      | none =>
        if !(tb.any (fun ch => ch == '<')) then
          ((if st.hasStartedReasoning && !st.hasStartedText then [Ev.thinkingEnd] else []) ++
            (if !st.hasStartedText then [Ev.textStart] else []) ++ [Ev.textDelta tb],
           { st with hasStartedText := true, fullText := st.fullText ++ tb, textBuffer := [] })
        else ([], { st with textBuffer := tb })
    else
      match subIdxCI "</think>".toList tb with
      | some idx =>
        let thinkContent := tb.take idx
        ((if !thinkContent.isEmpty then [Ev.thinkingDelta thinkContent] else []) ++
          [Ev.thinkingEnd],
         { st with
            thinkBuffer := st.thinkBuffer ++ thinkContent,
            reasoningText := st.reasoningText ++ thinkContent,
            isInsideThinkTag := false,
            textBuffer := tb.drop (idx + 8) })
      | none =>
        if !(tb.any (fun ch => ch == '<')) then
          ([Ev.thinkingDelta tb],
           { st with
              thinkBuffer := st.thinkBuffer ++ tb,
              reasoningText := st.reasoningText ++ tb,
              textBuffer := [] })
        else ([], { st with textBuffer := tb })
  | .toolCall id name args =>
    if st.sentToolCallStarts.contains id then ([], st)
    else
      ([Ev.toolCallStart id name (some args)],
       { st with
          sentToolCallStarts := st.sentToolCallStarts ++ [id],
          toolCalls := st.toolCalls ++ [⟨id, name, args⟩] })
  | .toolCallStreamingStart id name =>
    let st1 := { st with currentToolCall := some ⟨id, name, []⟩ }
    if st.sentToolCallStarts.contains id then ([], st1)
    else
      ([Ev.toolCallStart id name none],
       { st1 with sentToolCallStarts := st.sentToolCallStarts ++ [id] })
  | .toolCallDelta dta =>
    match st.currentToolCall with
    | some ctc =>
      ([Ev.toolCallDelta ctc.toolCallId dta],
       { st with currentToolCall := some { ctc with argsText := ctc.argsText ++ dta } })
    | none => ([], st)
  | .finish =>
    let p1 : List Ev × NAState :=
      if !st.textBuffer.isEmpty then
        if st.isInsideThinkTag then
          ([Ev.thinkingDelta st.textBuffer],
           { st with reasoningText := st.reasoningText ++ st.textBuffer, textBuffer := [] })
        else
          ((if !st.hasStartedText then [Ev.textStart] else []) ++ [Ev.textDelta st.textBuffer],
           { st with
              hasStartedText := true,
              fullText := st.fullText ++ st.textBuffer,
              textBuffer := [] })
      else ([], st)
    let st1 := p1.2
    let p2 : List Ev × NAState :=
      if st1.isInsideThinkTag || (st1.hasStartedReasoning && !st1.hasStartedText) then
        ([Ev.thinkingEnd], { st1 with isInsideThinkTag := false })
      else ([], st1)
    let p3 : List Ev := if p2.2.hasStartedText then [Ev.textEnd] else []
    (p1.1 ++ p2.1 ++ p3, p2.2)
  | .error e => ([Ev.error e], st)

/-- Process a whole model stream inside one `Agent.chatStream` iteration
(the `for await` loop, chunk by chunk). -/
def naChunks (st : NAState) : List Chunk → List Ev × NAState
  | [] => ([], st)
  | c :: cs =>
    let p := naChunk st c
    let q := naChunks p.2 cs
    (p.1 ++ q.1, q.2)

/-- The tool collaborator (`MCPManager.callTool`): may reject with a
message. -/
abbrev ToolFn := Str → Json → Except Str Json

/-- The result record built for one executed call, with a rejection caught
and converted to an error message (`try`/`catch` around `callTool`). -/
structure AToolResult where
  toolCallId : Str
  toolName : Str
  result : Json
  isError : Bool

/-- Execute one tool call with the per-call `try`/`catch`. -/
def execOne (tool : ToolFn) (tc : AToolCall) : AToolResult :=
  match tool tc.toolName tc.args with
  | .ok v => ⟨tc.toolCallId, tc.toolName, v, false⟩
  | .error msg => ⟨tc.toolCallId, tc.toolName, Json.str msg, true⟩

/-- Emit the result events for already-joined results in original call
order (the loop after `Promise.all`): each result yields a `tool_result`
event, and a non-error result matching the configured matchers additionally
yields an `immediate_result` event and sets the turn-ending flag. -/
def emitResults (matchers : List Matcher) : List AToolResult → List Ev × Bool
  | [] => ([], false)
  | r :: rs =>
    let trEv := Ev.toolResult r.toolCallId r.toolName r.result r.isError
    let matched := !r.isError && matchImmediateResult matchers r.result
    let rest := emitResults matchers rs
    ((trEv :: if matched then Ev.immediateResult r.toolCallId r.toolName r.result :: rest.1
        else rest.1),
     matched || rest.2)

/-- Serial tool execution: execute and emit call by call, in order. -/
def serialExec (matchers : List Matcher) (tool : ToolFn) : List AToolCall → List Ev × Bool
  | [] => ([], false)
  | tc :: tcs =>
    let r := execOne tool tc
    let trEv := Ev.toolResult r.toolCallId r.toolName r.result r.isError
    let matched := !r.isError && matchImmediateResult matchers r.result
    let rest := serialExec matchers tool tcs
    ((trEv :: if matched then Ev.immediateResult r.toolCallId r.toolName r.result :: rest.1
        else rest.1),
     matched || rest.2)

/-- The tool-execution phase of one `Agent.chatStream` iteration: emit
`tool_executing` for every call, then run the calls — in parallel (joined by
`Promise.all`, which preserves the original call order in its result list)
when configured and more than one call exists, serially otherwise — and emit
the per-result events.  Returns the events and the `hasImmediateResult`
flag. -/
def execPhase (matchers : List Matcher) (par : Bool) (tool : ToolFn)
    (tcs : List AToolCall) : List Ev × Bool :=
  let teEvs := tcs.map (fun tc => Ev.toolExecuting tc.toolCallId tc.toolName tc.args)
  let p :=
    if par && tcs.length > 1 then emitResults matchers (tcs.map (execOne tool))
    else serialExec matchers tool tcs
  (teEvs ++ p.1, p.2)

/-- Events of the optional thinking phase of one iteration: a dedicated
model invocation whose `text-delta` chunks are re-emitted as thinking
deltas (all other chunk kinds are ignored there). -/
def thinkPhaseEvents (cs : List Chunk) : List Ev :=
  Ev.thinkingStart ::
    (cs.filterMap (fun c =>
      match c with
      | .textDelta d => some (Ev.thinkingDelta d)
      | _ => none)) ++ [Ev.thinkingEnd]

/-- Configuration of an `Agent` turn (constructor options plus whether any
tools are available to the turn). -/
structure AgentCfg where
  maxIterations : Nat
  parallelToolCalls : Bool
  immediateResultMatchers : List Matcher
  enableThinkingPhase : Bool
  hasTools : Bool

/-- The optional thinking phase of one iteration: when enabled (and tools
exist) it consumes one model invocation and emits its events; otherwise it
is empty.  Returns the events and the next invocation number. -/
def iterThinkP (cfg : AgentCfg) (script : Nat → List Chunk) (callNo : Nat) :
    List Ev × Nat :=
  if cfg.enableThinkingPhase && cfg.hasTools then
    (thinkPhaseEvents (script callNo), callNo + 1)
  else ([], callNo)

/-- The iteration loop of `Agent.chatStream`.  `fuel` is the number of
remaining iterations (`maxIterations - iteration`), `iter` the iterations
already run, `callNo` the number of `streamText` invocations made so far
(the model collaborator is a script indexed by invocation).  Returns the
emitted events and the final iteration counter. -/
def runIters (cfg : AgentCfg) (script : Nat → List Chunk) (tool : ToolFn) :
    Nat → Nat → Nat → List Ev × Nat
  | 0, iter, _ => ([], iter)
  | fuel + 1, iter, callNo =>
    let iter1 := iter + 1
    let thinkP := iterThinkP cfg script callNo
    let callNo1 := thinkP.2
    let sp := naChunks naInit (script callNo1)
    let headEvs := Ev.iterationStart iter1 cfg.maxIterations :: thinkP.1 ++ sp.1
    if sp.2.toolCalls.isEmpty then
      (headEvs ++ [Ev.iterationEnd iter1], iter1)
    else
      let ep := execPhase cfg.immediateResultMatchers cfg.parallelToolCalls tool sp.2.toolCalls
      if ep.2 then
        (headEvs ++ ep.1 ++ [Ev.iterationEnd iter1], iter1)
      else
        let rest := runIters cfg script tool fuel iter1 (callNo1 + 1)
        (headEvs ++ ep.1 ++ [Ev.iterationEnd iter1] ++ rest.1, rest.2)

/-- Model of `Agent.chatStream`: run the iteration loop and append the
final `complete` event carrying the total iteration count. -/
def agentChatStream (cfg : AgentCfg) (script : Nat → List Chunk) (tool : ToolFn) :
    List Ev :=
  let p := runIters cfg script tool cfg.maxIterations 0 0
  p.1 ++ [Ev.complete p.2]

/-- Parse state of `PromptBasedAgent.chatStream` per iteration. -/
inductive PBParseState where
  | normal
  | think
  | toolCall
  | todo
deriving DecidableEq

/-- Per-iteration stream state of `PromptBasedAgent.chatStream`.  The
variables are declared inside the iteration loop of the source, so every
iteration starts from `pbInit` (including `hasTodoCreated`). -/
structure PBState where
  fullResponse : Str
  hasStartedThinking : Bool
  hasEndedThinking : Bool
  hasStartedText : Bool
  hasNativeReasoning : Bool
  isFirstTextChunk : Bool
  buffer : Str
  parseState : PBParseState
  currentTodoId : Option Str
  todoItemCounter : Nat
  hasTodoCreated : Bool
deriving DecidableEq

/-- Initial per-iteration state of `PromptBasedAgent.chatStream`. -/
def pbInit : PBState :=
  ⟨[], false, false, false, false, true, [], .normal, none, 0, false⟩

/-- Attempt the `<tool_result[^>]*>[\s\S]*?<\/tool_result>` regex at the
start of `s`, returning the length of the matched span. -/
def fakeTRTryAt (s : Str) : Option Nat :=
  if hasPfxCI s "<tool_result".toList then
    let rest := s.drop 12
    let attrs := rest.takeWhile (fun c => c != '>')
    match rest.drop attrs.length with
    | _ :: cs =>
      match subIdxCI "</tool_result>".toList cs with
      | some j => some (12 + attrs.length + 1 + j + 14)
      | none => none
    | [] => none
  else none

/-- Leftmost match of the hallucinated-tool-result regex: position and
length. -/
def fakeTRScan : Str → Option (Nat × Nat)
  | [] => none
  | c :: cs =>
    match fakeTRTryAt (c :: cs) with
    | some len => some (0, len)
    | none => (fakeTRScan cs).map (fun p => (p.1 + 1, p.2))

/-- Body of the bare-JSON marker regex `\s*\{\s*\n?\s*"name"` after the
anchor alternative. -/
def jsonMarkerBody (s : Str) : Bool :=
  match s.dropWhile jsWs with
  | c :: cs => c == lbrace && hasPfx (cs.dropWhile jsWs) (qD :: 'n' :: 'a' :: 'm' :: 'e' :: qD :: [])
  | [] => false

/-- Scan for the `\n`-anchored alternative of the bare-JSON marker. -/
def jsonMarkerScan : Str → Option Nat
  | [] => none
  | c :: cs =>
    if c == Char.ofNat 10 && jsonMarkerBody cs then some 0
    else (jsonMarkerScan cs).map (· + 1)

/-- Leftmost match position of `/(?:^|\n)\s*\{\s*\n?\s*"name"/` in the
buffer (the `jsonStart` marker of `PromptBasedAgent.chatStream`). -/
def jsonMarkerPos (buffer : Str) : Option Nat :=
  if jsonMarkerBody buffer then some 0 else jsonMarkerScan buffer

/-- Marker kinds recognized in the `normal` parse state, in the priority
order of the source's marker array (stable sort by position). -/
inductive MarkerKind where
  | think
  | toolCall
  | codeBlock
  | json
  | todo
  | todoUpdate
deriving DecidableEq

/-- Pick the earliest marker; on equal positions the one earlier in the
array wins (JavaScript's stable sort). -/
def pickMarker (cands : List (MarkerKind × Option Nat)) : Option (MarkerKind × Nat) :=
  cands.foldl (fun best c =>
    match c.2 with
    | none => best
    | some p =>
      match best with
      | none => some (c.1, p)
      | some b => if p < b.2 then some (c.1, p) else best) none

/-- Leftmost match of the `<todo …>` block regex
`/<todo\s+title=["']([^"']+)["']>([\s\S]*?)<\/todo>/i`, returning title and
block content. -/
def todoTagTryAt (s : Str) : Option (Str × Str) :=
  if hasPfxCI s "<todo".toList then
    let r1 := s.drop 5
    let ws := r1.takeWhile jsWs
    if ws.isEmpty then none
    else
      let r2 := r1.drop ws.length
      if hasPfxCI r2 "title=".toList then
        match r2.drop 6 with
        | q1 :: r3 =>
          if q1 == qD || q1 == qS then
            let ttl := r3.takeWhile (fun c => c != qD && c != qS)
            if ttl.isEmpty then none
            else
              match r3.drop ttl.length with
              | q2 :: r4 =>
                if (q2 == qD || q2 == qS) then
                  match r4 with
                  | g :: r5 =>
                    if g == '>' then
                      match subIdxCI "</todo>".toList r5 with
                      | some j => some (ttl, r5.take j)
                      | none => none
                    else none
                  | [] => none
                else none
              | [] => none
          else none
        | [] => none
      else none
  else none

/-- Scan for the leftmost `<todo …>` block match. -/
def todoTagScan : Str → Option (Str × Str)
  | [] => none
  | c :: cs =>
    match todoTagTryAt (c :: cs) with
    | some r => some r
    | none => todoTagScan cs

/-- One checklist line: accepted when the trimmed line starts with `-`,
`*` or `digits.`; then both list prefixes are stripped in sequence and the
remainder trimmed (`PromptBasedAgent.parseTodoList`). -/
def todoItemOfLine (line : Str) : Option Str :=
  let t := jsTrim line
  let numPrefix :=
    match t.takeWhile isDigitC with
    | [] => false
    | ds => hasPfx (t.drop ds.length) ['.']
  if hasPfx t ['-'] || hasPfx t ['*'] || numPrefix then
    let r1 :=
      match t with
      | c :: cs => if c == '-' || c == '*' then cs.dropWhile jsWs else t
      | [] => t
    let ds := r1.takeWhile isDigitC
    let r2 :=
      if !ds.isEmpty && hasPfx (r1.drop ds.length) ['.'] then
        (r1.drop (ds.length + 1)).dropWhile jsWs
      else r1
    let item := jsTrim r2
    if item.isEmpty then none else some item
  else none

/-- Model of `PromptBasedAgent.parseTodoList`: match the block regex, split
the content into lines and collect the step items; `none` without a match
or without items. -/
def parseTodoList (text : Str) : Option (Str × List Str) :=
  match todoTagScan text with
  | none => none
  | some (title, content) =>
    let items := (content.splitOn (Char.ofNat 10)).filterMap todoItemOfLine
    if items.isEmpty then none else some (title, items)

/-- A parsed `<todo_update …/>` directive. -/
structure TodoUpdate where
  id : Str
  status : Str
  result : Option Str

/-- Tail of the todo-update regex after the captured groups:
`\s*\/?>`. -/
def todoUpdateTail (s : Str) : Bool :=
  match s.dropWhile jsWs with
  | c :: cs => if c == '/' then hasPfx cs ['>'] else c == '>'
  | [] => false

/-- Attempt the `<todo_update …>` regex at the start of `s`
(`/<todo_update\s+id=["']([^"']+)["']\s+status=["']([^"']+)["'](?:\s+result=["']([^"']*)["'])?\s*\/?>/i`). -/
def todoUpdateTryAt (s : Str) : Option TodoUpdate :=
  if hasPfxCI s "<todo_update".toList then
    let r1 := s.drop 12
    let ws1 := r1.takeWhile jsWs
    if ws1.isEmpty then none
    else
      let r2 := r1.drop ws1.length
      if hasPfxCI r2 "id=".toList then
        match r2.drop 3 with
        | q1 :: r3 =>
          if q1 == qD || q1 == qS then
            let idv := r3.takeWhile (fun c => c != qD && c != qS)
            if idv.isEmpty then none
            else
              match r3.drop idv.length with
              | q2 :: r4 =>
                if q2 == qD || q2 == qS then
                  let ws2 := r4.takeWhile jsWs
                  if ws2.isEmpty then none
                  else
                    let r5 := r4.drop ws2.length
                    if hasPfxCI r5 "status=".toList then
                      match r5.drop 7 with
                      | q3 :: r6 =>
                        if q3 == qD || q3 == qS then
                          let stv := r6.takeWhile (fun c => c != qD && c != qS)
                          if stv.isEmpty then none
                          else
                            match r6.drop stv.length with
                            | q4 :: r7 =>
                              if q4 == qD || q4 == qS then
                                let withResult : Option TodoUpdate :=
                                  let ws3 := r7.takeWhile jsWs
                                  if ws3.isEmpty then none
                                  else
                                    let r8 := r7.drop ws3.length
                                    if hasPfxCI r8 "result=".toList then
                                      match r8.drop 7 with
                                      | q5 :: r9 =>
                                        if q5 == qD || q5 == qS then
                                          let rv := r9.takeWhile (fun c => c != qD && c != qS)
                                          match r9.drop rv.length with
                                          | q6 :: r10 =>
                                            if (q6 == qD || q6 == qS) && todoUpdateTail r10 then
                                              some ⟨idv, stv, some rv⟩
                                            else none
                                          | [] => none
                                        else none
                                      | [] => none
                                    else none
                                match withResult with
                                | some u => some u
                                | none =>
                                  if todoUpdateTail r7 then some ⟨idv, stv, none⟩ else none
                              else none
                            | [] => none
                        else none
                      | [] => none
                    else none
                else none
              | [] => none
          else none
        | [] => none
      else none
  else none

/-- Model of `PromptBasedAgent.parseTodoUpdate`: leftmost match of the
update regex in the given tag text. -/
def parseTodoUpdate : Str → Option TodoUpdate
  | [] => none
  | c :: cs =>
    match todoUpdateTryAt (c :: cs) with
    | some u => some u
    | none => parseTodoUpdate cs

/-- Balanced-brace scan of the bare-JSON terminator in the `tool_call`
parse state: index of the brace closing the first one, if present. -/
def braceEnd : Nat → Nat → Str → Option Nat
  | depth, i, c :: cs =>
    if c == lbrace then braceEnd (depth + 1) (i + 1) cs
    else if c == rbrace then
      if depth == 1 then some i else braceEnd (depth - 1) (i + 1) cs
    else braceEnd depth (i + 1) cs
  | _, _, [] => none

/-- Handling of the earliest recognized marker in the `normal` parse
state: emit the text before the marker (when nonempty after trimming and
thinking has ended) and dispatch on the marker kind. -/
def pbMarkerStep (st : PBState) (kind : MarkerKind) (pos : Nat) :
    List Ev × PBState × Bool :=
      let before := st.buffer.take pos
      let emitBefore := pos > 0 && !(jsTrim before).isEmpty && st.hasEndedThinking
      let beforeEvs :=
        if emitBefore then
          (if !st.hasStartedText then [Ev.textStart] else []) ++ [Ev.textDelta before]
        else []
      let st0 := { st with hasStartedText := st.hasStartedText || emitBefore }
      match kind with
      | .think =>
        (beforeEvs ++ (if !st0.hasStartedThinking then [Ev.thinkingStart] else []),
         { st0 with
            parseState := .think,
            hasStartedThinking := true,
            buffer := st0.buffer.drop (pos + 7) }, true)
      | .toolCall =>
        (beforeEvs, { st0 with parseState := .toolCall, buffer := st0.buffer.drop (pos + 11) },
         true)
      | .codeBlock =>
        let afterBlock := st0.buffer.drop (pos + 3)
        let jsonTag :=
          hasPfx afterBlock "json".toList &&
            ((afterBlock.drop 4).takeWhile jsWs).any (fun c => c == Char.ofNat 10)
        let braceTag := hasPfx (afterBlock.dropWhile jsWs) [lbrace]
        if jsonTag || braceTag then
          (beforeEvs, { st0 with parseState := .toolCall, buffer := st0.buffer.drop pos }, true)
        else
          (beforeEvs, { st0 with buffer := st0.buffer.drop pos }, false)
      | .json =>
        let b :=
          match subIdx [lbrace] (st0.buffer.drop pos) with
          | some k => st0.buffer.drop (pos + k)
          | none => st0.buffer
        (beforeEvs, { st0 with parseState := .toolCall, buffer := b }, true)
      | .todo =>
        (beforeEvs, { st0 with parseState := .todo, buffer := st0.buffer.drop pos }, true)
      | .todoUpdate =>
        let endPos : Option Nat :=
          match subIdx "/>".toList (st0.buffer.drop pos) with
          | some e => some (pos + e + 2)
          | none =>
            match subIdx ['>'] (st0.buffer.drop pos) with
            | some e => some (pos + e + 1)
            | none => none
        match endPos with
        | some e =>
          let updateTag := (st0.buffer.take e).drop pos
          let updEvs :=
            match parseTodoUpdate updateTag, st0.currentTodoId with
            | some u, some tid => [Ev.todoItemUpdate tid u.id u.status u.result]
            | _, _ => []
          (beforeEvs ++ updEvs, { st0 with buffer := st0.buffer.drop e }, true)
        | none => (beforeEvs, st0, false)

/-- One pass of the buffer-processing `while` loop body of
`PromptBasedAgent.chatStream` in the `normal` parse state.  Returns the
events, the next state, and the `processed` flag. -/
def pbStepNormal (st : PBState) : List Ev × PBState × Bool :=
  match fakeTRScan st.buffer with
  | some (pos, len) =>
    ([], { st with buffer := st.buffer.take pos ++ st.buffer.drop (pos + len) }, true)
  | none =>
    let cands : List (MarkerKind × Option Nat) :=
      [(.think, subIdx "<think>".toList st.buffer),
       (.toolCall, subIdx "<tool_call>".toList st.buffer),
       (.codeBlock, subIdx "```".toList st.buffer),
       (.json, jsonMarkerPos st.buffer),
       (.todo, subIdx "<todo ".toList st.buffer),
       (.todoUpdate, subIdx "<todo_update ".toList st.buffer)]
    match pickMarker cands with
    | some (kind, pos) => pbMarkerStep st kind pos
    | none =>
      if !(st.buffer.any (fun c => c == '<')) && !(st.buffer.any (fun c => c == Char.ofNat 96)) &&
          !(st.buffer.any (fun c => c == lbrace)) then
        if !(jsTrim st.buffer).isEmpty && st.hasEndedThinking then
          ((if !st.hasStartedText then [Ev.textStart] else []) ++ [Ev.textDelta st.buffer],
           { st with hasStartedText := true, buffer := [] }, true)
        else if !st.hasEndedThinking && !st.hasStartedThinking && st.isFirstTextChunk then
          ([], st, false)
        else ([], { st with buffer := [] }, true)
      else ([], st, false)

/-- One pass of the buffer-processing loop body of
`PromptBasedAgent.chatStream` (all parse states). -/
def pbStep (st : PBState) : List Ev × PBState × Bool :=
  match st.parseState with
  | .normal => pbStepNormal st
  | .think =>
    match subIdx "</think>".toList st.buffer with
    | some e =>
      let content := st.buffer.take e
      ((if !content.isEmpty then [Ev.thinkingDelta content] else []) ++ [Ev.thinkingEnd],
       { st with
          hasEndedThinking := true,
          parseState := .normal,
          buffer := st.buffer.drop (e + 8) }, true)
    | none =>
      let safeLength := st.buffer.length - 10
      if safeLength > 0 then
        ([Ev.thinkingDelta (st.buffer.take safeLength)],
         { st with buffer := st.buffer.drop safeLength }, true)
      else ([], st, false)
  | .todo =>
    match subIdx "</todo>".toList st.buffer with
    | some e =>
      let todoContent := st.buffer.take (e + 7)
      let rest := st.buffer.drop (e + 7)
      match parseTodoList todoContent with
      | some (title, items) =>
        if !st.hasTodoCreated then
          let tid := "todo".toList
          let evs := Ev.todoStart tid title ::
            items.enum.map (fun p => Ev.todoItemAdd tid (Nat.toDigits 10 (p.1 + 1)) p.2)
          (evs,
           { st with
              hasTodoCreated := true,
              currentTodoId := some tid,
              todoItemCounter := items.length,
              parseState := .normal,
              buffer := rest }, true)
        else ([], { st with parseState := .normal, buffer := rest }, true)
      | none => ([], { st with parseState := .normal, buffer := rest }, true)
    | none => ([], st, false)
  | .toolCall =>
    match subIdx "</tool_call>".toList st.buffer with
    | some e => ([], { st with parseState := .normal, buffer := st.buffer.drop (e + 12) }, true)
    | none =>
      if hasPfx st.buffer "```".toList then
        match subIdx "```".toList (st.buffer.drop 3) with
        | some e =>
          ([], { st with parseState := .normal, buffer := st.buffer.drop (3 + e + 3) }, true)
        | none => ([], st, false)
      else if hasPfx st.buffer [lbrace] then
        match braceEnd 0 0 st.buffer with
        | some e => ([], { st with parseState := .normal, buffer := st.buffer.drop (e + 1) }, true)
        | none => ([], st, false)
      else ([], st, false)

/-- The buffer-processing `while (processed && buffer.length > 0)` loop.
Each processed pass either consumes buffer characters or switches out of the
`normal` state before consuming, so `2 * buffer.length + 2` passes always
suffice. -/
def pbLoop : Nat → PBState → List Ev × PBState
  | 0, st => ([], st)
  | fuel + 1, st =>
    if st.buffer.isEmpty then ([], st)
    else
      let p := pbStep st
      if p.2.2 then
        let q := pbLoop fuel p.2.1
        (p.1 ++ q.1, q.2)
      else (p.1, p.2.1)

/-- Handle one `text-delta` chunk of `PromptBasedAgent.chatStream`: close a
native reasoning block if needed, append to the buffer and the full
response, run the first-chunk direct-reply detection, then run the buffer
loop. -/
def pbFeedText (st : PBState) (d : Str) : List Ev × PBState :=
  let p0 : List Ev × PBState :=
    if st.hasNativeReasoning && !st.hasEndedThinking then
      ([Ev.thinkingEnd], { st with hasEndedThinking := true })
    else ([], st)
  let st1 := { p0.2 with
    buffer := p0.2.buffer ++ d,
    fullResponse := p0.2.fullResponse ++ d }
  let st2 :=
    if st1.isFirstTextChunk && !st1.hasStartedThinking && !st1.hasEndedThinking then
      let tBuf := jsTrimStart st1.buffer
      if tBuf.length ≥ 7 then
        if !(hasPfx tBuf "<think>".toList) && !(hasPfx tBuf "<think ".toList) then
          { st1 with isFirstTextChunk := false, hasEndedThinking := true }
        else { st1 with isFirstTextChunk := false }
      else st1
    else st1
  let q := pbLoop (2 * st2.buffer.length + 2) st2
  (p0.1 ++ q.1, q.2)

/-- Handle one chunk of the model stream in `PromptBasedAgent.chatStream`
(the `if`/`else if` chain over `stream.fullStream`; chunk kinds other than
`reasoning`, `text-delta` and `finish` are ignored there). -/
def pbChunk (st : PBState) (c : Chunk) : List Ev × PBState :=
  match c with
  | .reasoning d =>
    ((if !st.hasStartedThinking then [Ev.thinkingStart] else []) ++
      (if !d.isEmpty then [Ev.thinkingDelta d] else []),
     { st with hasNativeReasoning := true, hasStartedThinking := true })
  | .textDelta d => pbFeedText st d
  | .finish =>
    let p1 : List Ev × PBState :=
      if !(jsTrim st.buffer).isEmpty then
        match st.parseState with
        | .think => ([Ev.thinkingDelta st.buffer, Ev.thinkingEnd], st)
        | .normal =>
          if st.hasEndedThinking then
            ((if !st.hasStartedText then [Ev.textStart] else []) ++ [Ev.textDelta st.buffer],
             { st with hasStartedText := true })
          else ([], st)
        | _ => ([], st)
      else ([], st)
    ((p1.1 ++ if p1.2.hasStartedText then [Ev.textEnd] else []), p1.2)
  | _ => ([], st)

/-- Process a whole model stream of one `PromptBasedAgent.chatStream`
iteration. -/
def pbChunks (st : PBState) : List Chunk → List Ev × PBState
  | [] => ([], st)
  | c :: cs =>
    let p := pbChunk st c
    let q := pbChunks p.2 cs
    (p.1 ++ q.1, q.2)

/-- The iteration loop of `PromptBasedAgent.chatStream`: stream one model
response, then decode a tool call from the full response text; with a call,
execute it (single call, `tool-${Date.now()}` id modelled without the
timestamp) and iterate again; without one, end the turn. -/
def pbRunIters (maxIter : Nat) (script : Nat → List Chunk) (tool : ToolFn) :
    Nat → Nat → List Ev × Nat
  | 0, iter => ([], iter)
  | fuel + 1, iter =>
    let iter1 := iter + 1
    let sp := pbChunks pbInit (script iter)
    let headEvs := Ev.iterationStart iter1 maxIter :: sp.1
    match parseToolCall sp.2.fullResponse with
    | some tc =>
      let tid := "tool".toList
      let r := execOne tool ⟨tid, tc.name, tc.args⟩
      let evs := headEvs ++
        [Ev.toolCallStart tid tc.name (some tc.args),
         Ev.toolExecuting tid tc.name tc.args,
         Ev.toolResult tid tc.name r.result r.isError,
         Ev.iterationEnd iter1]
      let rest := pbRunIters maxIter script tool fuel iter1
      (evs ++ rest.1, rest.2)
    | none => (headEvs ++ [Ev.iterationEnd iter1], iter1)

/-- Model of `PromptBasedAgent.chatStream`: run the iteration loop and
append the final `complete` event. -/
def pbChatStream (maxIter : Nat) (script : Nat → List Chunk) (tool : ToolFn) : List Ev :=
  let p := pbRunIters maxIter script tool maxIter 0
  p.1 ++ [Ev.complete p.2]

/-- The pattern set of models that must use the prompt-based agent
(`PROMPT_BASED_PATTERNS`). -/
def promptBasedTest (id : Str) : Bool :=
  (subIdxCI "deepseek".toList id).isSome ||
  hasPfxCI id "gpt".toList ||
  hasPfxCI id "gemini".toList ||
  hasPfxCI id "mistral".toList ||
  hasPfxCI id "llama".toList ||
  hasPfxCI id "phi-".toList ||
  hasPfxCI id "qwen".toList ||
  hasPfxCI id "mixtral".toList ||
  hasPfxCI id "command-r".toList

/-- The pattern set of models with native reasoning support
(`NATIVE_REASONING_PATTERNS`). -/
def nativeReasoningTest (id : Str) : Bool :=
  hasPfxCI id "claude-3".toList ||
  hasPfxCI id "claude-2".toList ||
  hasPfxCI id "o1".toList ||
  hasPfxCI id "o3".toList

/-- Model of `detectNativeToolSupport`: prompt-based patterns are checked
first and win; then native-reasoning patterns; unknown models default to
the prompt-based agent. -/
def detectNativeToolSupport (id : Str) : Bool :=
  if promptBasedTest id then false
  else if nativeReasoningTest id then true
  else false

/-- Model of the mode selection in the `MCPLink` constructor:
`usePromptBasedTools === true` forces the prompt-based agent,
`=== false` forces the native agent, and otherwise (`'auto'` or absent,
both modelled as `none`) the model identifier — `modelName` when present
and nonempty, else `model.modelId` — is auto-detected.  The returned flag
is `detectedNativeSupport` (`true` = native `Agent`, `false` =
`PromptBasedAgent`). -/
def detectedNativeSupport (usePromptBasedTools : Option Bool) (modelName : Option Str)
    (modelId : Str) : Bool :=
  match usePromptBasedTools with
  | some true => false
  | some false => true
  | none =>
    detectNativeToolSupport
      (match modelName with
       | some s => if !s.isEmpty then s else modelId
       | none => modelId)

/-- Is this an `iteration_start` event? -/
def isIterStartEv : Ev → Bool
  | .iterationStart _ _ => true
  | _ => false

/-- Is this an `iteration_end` event? -/
def isIterEndEv : Ev → Bool
  | .iterationEnd _ => true
  | _ => false

/-- Is this a `complete` event? -/
def isCompleteEv : Ev → Bool
  | .complete _ => true
  | _ => false

/-- Is this an `error` event? -/
def isErrorEv : Ev → Bool
  | .error _ => true
  | _ => false

/-- Is this a `tool_result` event? -/
def isToolResultEv : Ev → Bool
  | .toolResult _ _ _ _ => true
  | _ => false

/-- Is this a `tool_call_start` event? -/
def isToolCallStartEv : Ev → Bool
  | .toolCallStart _ _ _ => true
  | _ => false

/-- Is this an `immediate_result` event? -/
def isImmediateEv : Ev → Bool
  | .immediateResult _ _ _ => true
  | _ => false

/-- Is this a `todo_start` event? -/
def isTodoStartEv : Ev → Bool
  | .todoStart _ _ => true
  | _ => false

/-- Is this a `thinking_start` event? -/
def isThinkingStartEv : Ev → Bool
  | .thinkingStart => true
  | _ => false

/-- Is this a `thinking_end` event? -/
def isThinkingEndEv : Ev → Bool
  | .thinkingEnd => true
  | _ => false

/-- Is this one of the loop-shape event kinds (`iteration_start`,
`iteration_end`, `complete`, `error`)? -/
def isCoreEv (e : Ev) : Bool :=
  isIterStartEv e || isIterEndEv e || isCompleteEv e || isErrorEv e

/-- The call ids of the `tool_result` events, in emission order. -/
def trIds (l : List Ev) : List Str :=
  l.filterMap (fun e =>
    match e with
    | .toolResult id _ _ _ => some id
    | _ => none)

/-- The call ids of the `tool_call_start` events, in emission order
(the issuance order of the calls). -/
def tcsIds (l : List Ev) : List Str :=
  l.filterMap (fun e =>
    match e with
    | .toolCallStart id _ _ => some id
    | _ => none)

/-- The `tool_result` payloads `(id, name, result, isError)` in emission
order. -/
def trRecords (l : List Ev) : List (Str × Str × Json × Bool) :=
  l.filterMap (fun e =>
    match e with
    | .toolResult id nm r err => some (id, nm, r, err)
    | _ => none)

/-- The `immediate_result` payloads `(id, name, result)` in emission
order. -/
def immRecords (l : List Ev) : List (Str × Str × Json) :=
  l.filterMap (fun e =>
    match e with
    | .immediateResult id nm r => some (id, nm, r)
    | _ => none)

/-- Concatenation of all `thinking_delta` contents. -/
def thinkDeltaConcat (l : List Ev) : Str :=
  (l.filterMap (fun e =>
    match e with
    | .thinkingDelta c => some c
    | _ => none)).flatten

/-- Concatenation of all `text_delta` contents. -/
def textDeltaConcat (l : List Ev) : Str :=
  (l.filterMap (fun e =>
    match e with
    | .textDelta c => some c
    | _ => none)).flatten

/-- Is the first list an in-order subsequence of the second? -/
def isSubseqB : List Str → List Str → Bool
  | [], _ => true
  | _ :: _, [] => false
  | x :: xs, y :: ys => if x == y then isSubseqB xs ys else isSubseqB (x :: xs) ys

/-- Scan step establishing that every `tool_result` is preceded by exactly
one `tool_call_start` with the same id: the accumulator carries the ids of
the `tool_call_start` events seen so far and the verdict. -/
def tcsBeforeTrStep (acc : List Str × Bool) (e : Ev) : List Str × Bool :=
  match e with
  | .toolCallStart id _ _ => (acc.1 ++ [id], acc.2)
  | .toolResult id _ _ _ => (acc.1, acc.2 && acc.1.count id == 1)
  | _ => acc

/-- Does every `tool_result` event of the sequence have exactly one
preceding `tool_call_start` with its id? -/
def tcsBeforeTrOk (l : List Ev) : Bool :=
  (l.foldl tcsBeforeTrStep ([], true)).2

/-- Scan step establishing that no `iteration_start` follows an
`immediate_result`; the accumulator is (seen an immediate result, verdict
so far). -/
def noIterStartAfterImmStep (acc : Bool × Bool) (e : Ev) : Bool × Bool :=
  match e with
  | .immediateResult _ _ _ => (true, acc.2)
  | .iterationStart _ _ => (acc.1, acc.2 && !acc.1)
  | _ => acc

/-- Does no `iteration_start` event follow an `immediate_result` event? -/
def noIterStartAfterImm (l : List Ev) : Bool :=
  (l.foldl noIterStartAfterImmStep (false, true)).2

/-- Scan step establishing that no thinking event follows a text event;
the accumulator is (seen text output, verdict so far). -/
def noThinkAfterTextStep (acc : Bool × Bool) (e : Ev) : Bool × Bool :=
  match e with
  | .textStart => (true, acc.2)
  | .textDelta _ => (true, acc.2)
  | .thinkingStart => (acc.1, acc.2 && !acc.1)
  | .thinkingDelta _ => (acc.1, acc.2 && !acc.1)
  | .thinkingEnd => (acc.1, acc.2 && !acc.1)
  | _ => acc

/-- Do all thinking events precede all text events? -/
def noThinkAfterText (l : List Ev) : Bool :=
  (l.foldl noThinkAfterTextStep (false, true)).2

/-- The tag round-trip input of the spec: `<think>hello </think>world`
(26 characters). -/
def thinkRoundTripInput : Str := "<think>hello </think>world".toList

/-- The fragment of the round-trip input between positions `n` and `m`. -/
def pbSeg (n m : Nat) : Str := (thinkRoundTripInput.drop n).take (m - n)

/-- Canonical parser state after consuming the first `n` characters of the
round-trip input (fed as a single fragment). -/
def pbCanonState (n : Nat) : PBState :=
  (pbFeedText pbInit (thinkRoundTripInput.take n)).2

/-- Events of the canonical single-fragment feed of the first `n`
characters. -/
def pbCanonEvts (n : Nat) : List Ev :=
  (pbFeedText pbInit (thinkRoundTripInput.take n)).1

/-- Events emitted when the fragment `[n, m)` is fed from the canonical
state at `n`. -/
def pbSegEvts (n m : Nat) : List Ev :=
  (pbFeedText (pbCanonState n) (pbSeg n m)).1

/-- Decidable check for one pair of positions `n ≤ m`: feeding the fragment
`[n, m)` from the canonical state at `n` reaches the canonical state at
`m`, and every tracked summary of the emitted events (thinking start/end
counts, thinking and text delta concatenations, and the
thinking-before-text scan state) extends the canonical summary at `n` to
the canonical summary at `m`. -/
def c8CheckPairB (n m : Nat) : Bool :=
  decide ((pbFeedText (pbCanonState n) (pbSeg n m)).2 = pbCanonState m) &&
  decide ((pbCanonEvts n).countP isThinkingStartEv + (pbSegEvts n m).countP isThinkingStartEv =
    (pbCanonEvts m).countP isThinkingStartEv) &&
  decide ((pbCanonEvts n).countP isThinkingEndEv + (pbSegEvts n m).countP isThinkingEndEv =
    (pbCanonEvts m).countP isThinkingEndEv) &&
  decide (thinkDeltaConcat (pbCanonEvts n) ++ thinkDeltaConcat (pbSegEvts n m) =
    thinkDeltaConcat (pbCanonEvts m)) &&
  decide (textDeltaConcat (pbCanonEvts n) ++ textDeltaConcat (pbSegEvts n m) =
    textDeltaConcat (pbCanonEvts m)) &&
  decide ((pbSegEvts n m).foldl noThinkAfterTextStep
      ((pbCanonEvts n).foldl noThinkAfterTextStep (false, true)) =
    (pbCanonEvts m).foldl noThinkAfterTextStep (false, true))

/-- Exhaustive check of `c8CheckPairB` over all `0 ≤ n ≤ m ≤ 26`, together
with the identification of the initial state with the canonical state at
`0`. -/
def c8Check : Bool :=
  decide (pbCanonState 0 = pbInit) &&
  (List.range 27).all (fun m => (List.range (m + 1)).all (fun n => c8CheckPairB n m))

/-- Is this chunk an `error` chunk? -/
def chunkIsError : Chunk → Bool
  | .error _ => true
  | _ => false

/-- Does this chunk stream contain no `error` chunk? -/
def noErrorChunks (cs : List Chunk) : Bool := cs.all (fun c => !chunkIsError c)

/-- The tool-call ids carried by one chunk. -/
def chunkIds : Chunk → List Str
  | .toolCall id _ _ => [id]
  | .toolCallStreamingStart id _ => [id]
  | _ => []

/-- All tool-call ids carried by a chunk stream. -/
def chunkToolIds (cs : List Chunk) : List Str := (cs.map chunkIds).flatten

/-- The expected `iteration_start`/`iteration_end` pair skeleton of `fuel`
further complete iterations starting after iteration `iter`. -/
def corePairs : Nat → Nat → Nat → List Ev
  | 0, _, _ => []
  | fuel + 1, iter, mx =>
    Ev.iterationStart (iter + 1) mx :: Ev.iterationEnd (iter + 1) :: corePairs fuel (iter + 1) mx

/-- A tool collaborator that always succeeds with an empty object. -/
def toolAlwaysOk : ToolFn := fun _ _ => Except.ok (Json.obj [])

/-- A model script that requests one tool call (id `a`, tool `t`) on every
invocation. -/
def scriptAlwaysTool : Nat → List Chunk :=
  fun _ => [Chunk.toolCall "a".toList "t".toList (Json.obj []), Chunk.finish]

/-- Agent configuration with `maxIterations = 3` and no matchers. -/
def cfgThree : AgentCfg := ⟨3, true, [], false, true⟩

/-- Agent configuration with `maxIterations = 2` and no matchers. -/
def cfgTwo : AgentCfg := ⟨2, true, [], false, true⟩

/-- A script issuing two tool calls on the first invocation and none
afterwards. -/
def scriptTwoCalls : Nat → List Chunk :=
  fun i =>
    if i == 0 then
      [Chunk.toolCall "a".toList "t1".toList (Json.obj []),
       Chunk.toolCall "b".toList "t2".toList (Json.obj []),
       Chunk.finish]
    else [Chunk.finish]

/-- The `{type: "card"}` immediate-result matcher of the spec example. -/
def matcherCard : Matcher := [("type".toList, Json.str "card".toList)]

/-- The `{type: "card", id: 7}` result of the spec example. -/
def resultCard : Json :=
  Json.obj [("type".toList, Json.str "card".toList), ("id".toList, Json.num 7 0)]

/-- A tool collaborator whose tool `t1` rejects with a message that would
itself match `matcherCard`, and whose other tools return `resultCard`. -/
def toolCardOrFail : ToolFn := fun nm _ =>
  if nm == "t1".toList then
    Except.error ('\x7b' :: '"' :: 't' :: 'y' :: 'p' :: 'e' :: '"' :: ':' :: ' ' :: '"' :: 'c' ::
      'a' :: 'r' :: 'd' :: '"' :: '\x7d' :: [])
  else Except.ok resultCard

/-- The two tool calls of the C4 witness scenario. -/
def callsCard : List AToolCall :=
  [⟨"a".toList, "t1".toList, Json.obj []⟩, ⟨"b".toList, "t2".toList, Json.obj []⟩]

/-- Agent configuration with one iteration allowed. -/
def cfgOne : AgentCfg := ⟨1, true, [], false, true⟩

/-- A script whose stream reports a model error chunk and then finishes
without tool calls. -/
def scriptBoom : Nat → List Chunk :=
  fun _ => [Chunk.error "boom".toList, Chunk.finish]

/-- One-iteration model output containing a checklist block and a tool
call, used on every invocation (so a multi-iteration turn sees a checklist
block in each iteration). -/
def todoEachIterText : Str :=
  ("<todo title=" ++ String.mk [qD] ++ "t" ++ String.mk [qD] ++ ">\n- a\n</todo>" ++
    "<tool_call>" ++ String.mk [lbrace, qD] ++ "name" ++ String.mk [qD] ++ ":" ++
    String.mk [qD] ++ "f" ++ String.mk [qD] ++ "," ++ String.mk [qD] ++ "arguments" ++
    String.mk [qD] ++ ":" ++ String.mk [lbrace, rbrace, rbrace] ++ "</tool_call>").toList

/-- Script replaying `todoEachIterText` on every invocation. -/
def scriptTodoEach : Nat → List Chunk :=
  fun _ => [Chunk.textDelta todoEachIterText, Chunk.finish]

/-- One-iteration model output containing two checklist blocks and no tool
call. -/
def todoTwiceText : Str :=
  ("<todo title=" ++ String.mk [qD] ++ "t" ++ String.mk [qD] ++ ">\n- a\n</todo>ok" ++
    "<todo title=" ++ String.mk [qD] ++ "u" ++ String.mk [qD] ++ ">\n- b\n</todo>").toList

/-- Script producing `todoTwiceText` once. -/
def scriptTodoTwice : Nat → List Chunk :=
  fun _ => [Chunk.textDelta todoTwiceText, Chunk.finish]

/-- A single-quoted tool-call span: the first decoding strategy fails on
it and the quote-normalizing retry succeeds. -/
def spanSingleQuoted : Str :=
  (String.mk [lbrace, qS] ++ "name" ++ String.mk [qS] ++ ":" ++ String.mk [qS] ++ "search" ++
    String.mk [qS] ++ "," ++ String.mk [qS] ++ "arguments" ++ String.mk [qS] ++ ":" ++
    String.mk [lbrace, qS] ++ "q" ++ String.mk [qS] ++ ":" ++ String.mk [qS] ++ "x" ++
    String.mk [qS, rbrace, rbrace]).toList

/-- The value `spanSingleQuoted` parses to after quote normalization. -/
def spanSingleQuotedJson : Json :=
  Json.obj [("name".toList, Json.str "search".toList),
    ("arguments".toList, Json.obj [("q".toList, Json.str "x".toList)])]

/-- A partition of the round-trip input used as witness. -/
def thinkPartition : List Str :=
  ["<thi".toList, "nk>hel".toList, "lo </think>wor".toList, "ld".toList]

/-- Is this a `tool_executing` event? -/
def isToolExecutingEv : Ev → Bool
  | .toolExecuting _ _ _ => true
  | _ => false

/-- Is this event one of the kinds a model stream can emit inside
`Agent.chatStream` (thinking, text, tool-call-start/delta, error)? -/
def naStreamEv : Ev → Bool
  | .thinkingStart => true
  | .thinkingDelta _ => true
  | .thinkingEnd => true
  | .textStart => true
  | .textDelta _ => true
  | .textEnd => true
  | .toolCallStart _ _ _ => true
  | .toolCallDelta _ _ => true
  | .error _ => true
  | _ => false

/-- Is this event a thinking event? -/
def isThinkingEv : Ev → Bool
  | .thinkingStart => true
  | .thinkingDelta _ => true
  | .thinkingEnd => true
  | _ => false


theorem trRecords_append (a b : List Ev) : trRecords (a ++ b) = trRecords a ++ trRecords b := by
  simp [trRecords]

theorem immRecords_append (a b : List Ev) :
    immRecords (a ++ b) = immRecords a ++ immRecords b := by
  simp [immRecords]

theorem trRecords_te (tcs : List AToolCall) :
    trRecords (tcs.map (fun tc => Ev.toolExecuting tc.toolCallId tc.toolName tc.args)) = [] := by
  induction tcs with
  | nil => rfl
  | cons tc tcs ih => simp [trRecords, List.filterMap_cons]

theorem immRecords_te (tcs : List AToolCall) :
    immRecords (tcs.map (fun tc => Ev.toolExecuting tc.toolCallId tc.toolName tc.args)) = [] := by
  induction tcs with
  | nil => rfl
  | cons tc tcs ih => simp [immRecords, List.filterMap_cons]

theorem countP_te (p : Ev → Bool)
    (h : ∀ id nm args, p (Ev.toolExecuting id nm args) = false) (tcs : List AToolCall) :
    (tcs.map (fun tc => Ev.toolExecuting tc.toolCallId tc.toolName tc.args)).countP p = 0 := by
  induction tcs with
  | nil => rfl
  | cons tc tcs ih => simp [List.countP_cons, h, ih]

theorem emitResults_tr (ms : List Matcher) (rs : List AToolResult) :
    trRecords (emitResults ms rs).1 =
      rs.map (fun r => (r.toolCallId, r.toolName, r.result, r.isError)) := by
  induction rs with
  | nil => rfl
  | cons r rs ih =>
    simp only [emitResults]
    split <;> simp [trRecords, List.filterMap_cons] <;>
      simpa [trRecords] using ih

theorem emitResults_imm (ms : List Matcher) (rs : List AToolResult) :
    immRecords (emitResults ms rs).1 =
      rs.filterMap (fun r =>
        if !r.isError && matchImmediateResult ms r.result then
          some (r.toolCallId, r.toolName, r.result)
        else none) := by
  induction rs with
  | nil => rfl
  | cons r rs ih =>
    simp only [emitResults, List.filterMap_cons]
    split <;> simp_all [immRecords, List.filterMap_cons]

theorem emitResults_countTR (ms : List Matcher) (rs : List AToolResult) :
    (emitResults ms rs).1.countP isToolResultEv = rs.length := by
  induction rs with
  | nil => rfl
  | cons r rs ih =>
    simp only [emitResults]
    split <;> simp [List.countP_cons, isToolResultEv, isImmediateEv, ih]

theorem emitResults_flag (ms : List Matcher) (rs : List AToolResult) :
    (emitResults ms rs).2 = rs.any (fun r => !r.isError && matchImmediateResult ms r.result) := by
  induction rs with
  | nil => rfl
  | cons r rs ih => simp only [emitResults, List.any_cons]; rw [ih]

theorem serialExec_eq_emit (ms : List Matcher) (tool : ToolFn) (tcs : List AToolCall) :
    serialExec ms tool tcs = emitResults ms (tcs.map (execOne tool)) := by
  induction tcs with
  | nil => rfl
  | cons tc tcs ih => simp only [serialExec, emitResults, List.map_cons, ih]

theorem execPhase_split (ms : List Matcher) (par : Bool) (tool : ToolFn) (tcs : List AToolCall) :
    execPhase ms par tool tcs =
      ((tcs.map (fun tc => Ev.toolExecuting tc.toolCallId tc.toolName tc.args)) ++
         (emitResults ms (tcs.map (execOne tool))).1,
       (emitResults ms (tcs.map (execOne tool))).2) := by
  simp only [execPhase]
  split
  · rfl
  · rw [serialExec_eq_emit]

theorem agentChatStream_last (cfg : AgentCfg) (script : Nat → List Chunk) (tool : ToolFn) :
    (agentChatStream cfg script tool).getLast? =
      some (Ev.complete (runIters cfg script tool cfg.maxIterations 0 0).2) := by
  simp [agentChatStream, List.getLast?_concat]

theorem execOne_record (tool : ToolFn) (tc : AToolCall) :
    ((execOne tool tc).toolCallId, (execOne tool tc).toolName, (execOne tool tc).result,
        (execOne tool tc).isError) =
      (match tool tc.toolName tc.args with
       | .ok v => (tc.toolCallId, tc.toolName, v, false)
       | .error msg => (tc.toolCallId, tc.toolName, Json.str msg, true)) := by
  unfold execOne
  cases tool tc.toolName tc.args <;> rfl

/-- C3: if `N` tool calls are issued in one iteration and the tool
collaborator rejects for any subset of them, exactly `N` `tool_result`
events are still emitted for that iteration; the emitted result records
are, in original call order, the call's value with `isError = false` when
the collaborator succeeds and the failure message with `isError = true`
when it rejects; and no failure aborts the turn: the turn still ends with
its final `complete` event. -/
theorem c3_tool_failure_isolation (ms : List Matcher) (par : Bool) (tool : ToolFn)
    (tcs : List AToolCall) :
    trRecords (execPhase ms par tool tcs).1 =
      tcs.map (fun tc =>
        match tool tc.toolName tc.args with
        | .ok v => (tc.toolCallId, tc.toolName, v, false)
        | .error msg => (tc.toolCallId, tc.toolName, Json.str msg, true)) ∧
    (execPhase ms par tool tcs).1.countP isToolResultEv = tcs.length ∧
    ∀ cfg script, (agentChatStream cfg script tool).getLast? =
      some (Ev.complete (runIters cfg script tool cfg.maxIterations 0 0).2) := by
  refine ⟨?_, ?_, fun cfg script => agentChatStream_last cfg script tool⟩
  · rw [execPhase_split, trRecords_append, trRecords_te, emitResults_tr]
    simp only [List.nil_append, List.map_map]
    exact List.map_congr_left (fun tc _ => execOne_record tool tc)
  · rw [execPhase_split]
    simp [List.countP_append, emitResults_countTR,
      countP_te isToolResultEv (fun _ _ _ => rfl) tcs]

/-- Characterization of the immediate-result events of one iteration's
tool-execution phase. -/
theorem execPhase_immRecords (ms : List Matcher) (par : Bool) (tool : ToolFn)
    (tcs : List AToolCall) :
    immRecords (execPhase ms par tool tcs).1 =
      tcs.filterMap (fun tc =>
        match tool tc.toolName tc.args with
        | .ok v =>
          if matchImmediateResult ms v then some (tc.toolCallId, tc.toolName, v) else none
        | .error _ => none) := by
  rw [execPhase_split, immRecords_append, immRecords_te, emitResults_imm]
  simp only [List.nil_append, List.filterMap_map]
  refine List.filterMap_congr (fun tc _ => ?_)
  simp only [Function.comp_apply]
  unfold execOne
  cases tool tc.toolName tc.args <;> simp

/-- C10: an `immediate_result` event is only emitted for a non-error tool
result: the immediate-result records of an iteration's tool execution are
exactly those of the successfully returned results that match a configured
matcher, and a rejected call contributes none, whatever its failure
message. -/
theorem c10_immediate_skips_errors (ms : List Matcher) (par : Bool) (tool : ToolFn)
    (tcs : List AToolCall) :
    immRecords (execPhase ms par tool tcs).1 =
      tcs.filterMap (fun tc =>
        match tool tc.toolName tc.args with
        | .ok v =>
          if matchImmediateResult ms v then some (tc.toolCallId, tc.toolName, v) else none
        | .error _ => none) :=
  execPhase_immRecords ms par tool tcs

/-- C6 counterexample: on a model-stream error chunk, `Agent.chatStream`
emits the `error` event but the turn does not end there — the event is
followed by `iteration_end` and by the final `complete` event, so `error`
is not the last event of the turn and `complete` is not omitted. -/
theorem c6_counterexample :
    Ev.error "boom".toList ∈ agentChatStream cfgOne scriptBoom toolAlwaysOk ∧
    (agentChatStream cfgOne scriptBoom toolAlwaysOk).getLast? = some (Ev.complete 1) := by
  have h : agentChatStream cfgOne scriptBoom toolAlwaysOk =
      [Ev.iterationStart 1 1, Ev.error "boom".toList, Ev.iterationEnd 1, Ev.complete 1] := rfl
  rw [h]
  exact ⟨by simp, rfl⟩

/-- C6 (amended): a model-invocation failure surfaced as an `error` chunk
yields an `error` event that is not terminal: every turn of
`Agent.chatStream` — the error case included — ends with the final
`complete` event carrying the total iteration count, and in the concrete
error run the `error` event is followed by `iteration_end` and
`complete`. -/
theorem c6_error_event_then_complete :
    (∀ cfg script tool, (agentChatStream cfg script tool).getLast? =
      some (Ev.complete (runIters cfg script tool cfg.maxIterations 0 0).2)) ∧
    agentChatStream cfgOne scriptBoom toolAlwaysOk =
      [Ev.iterationStart 1 1, Ev.error "boom".toList, Ev.iterationEnd 1, Ev.complete 1] :=
  ⟨fun cfg script tool => agentChatStream_last cfg script tool, rfl⟩

/-- C7: the tool-call decoder `tryParseToolCallJson` tries its strategies
in order — parse the trimmed span as a JSON object and read `name` and
`arguments`, and only on a parse failure normalize single quotes to double
quotes and retry once; when every strategy fails the decoder returns no
call (`none`, never an error), and a parsed object without a string `name`
key yields no call.  Purity and determinism are inherent: the decoder is a
total function of the span. -/
theorem c7_decoder_strategy_order (s : Str) :
    (∀ j, jsonParse (jsTrim s) = some j → j ≠ Json.null →
      tryParseToolCallJson s = toolCallOfJson j) ∧
    (jsonParse (jsTrim s) = none → ∀ j, jsonParse (fixQuotes s) = some j → j ≠ Json.null →
      tryParseToolCallJson s = toolCallOfJson j) ∧
    (jsonParse (jsTrim s) = none → jsonParse (fixQuotes s) = none →
      tryParseToolCallJson s = none) ∧
    (∀ j, (∀ nm, jsGetField j "name".toList ≠ some (Json.str nm)) →
      toolCallOfJson j = none) := by
  refine ⟨?_, ?_, ?_, ?_⟩
  · intro j h hne
    unfold tryParseToolCallJson
    rw [h]
    cases j <;> first | exact absurd rfl hne | rfl
  · intro h1 j h2 hne
    unfold tryParseToolCallJson tryQuoteFix
    rw [h1, h2]
    cases j <;> first | exact absurd rfl hne | rfl
  · intro h1 h2
    unfold tryParseToolCallJson tryQuoteFix
    rw [h1, h2]
  · intro j hnone
    unfold toolCallOfJson
    cases hfield : jsGetField j "name".toList with
    | none => rfl
    | some v =>
      cases v with
      | str nm => exact absurd hfield (hnone nm)
      | null => rfl
      | bool b => rfl
      | num m e => rfl
      | arr xs => rfl
      | obj fs => rfl

/-- C7 witness: on the single-quoted span the first strategy fails, the
quote-normalizing retry parses, and the decoder returns the `search`
call. -/
theorem c7_witness :
    jsonParse (jsTrim spanSingleQuoted) = none ∧
    jsonParse (fixQuotes spanSingleQuoted) = some spanSingleQuotedJson ∧
    spanSingleQuotedJson ≠ Json.null ∧
    tryParseToolCallJson spanSingleQuoted = toolCallOfJson spanSingleQuotedJson ∧
    tryParseToolCallJson spanSingleQuoted =
      some ⟨"search".toList, Json.obj [("q".toList, Json.str "x".toList)]⟩ := by
  refine ⟨rfl, rfl, by simp [spanSingleQuotedJson], ?_, rfl⟩
  exact (c7_decoder_strategy_order spanSingleQuoted).2.1 rfl spanSingleQuotedJson rfl
    (by simp [spanSingleQuotedJson])

/-- C9: mode selection evaluates its rules in order: an explicit
`usePromptBasedTools` override wins outright (`true` forces the
prompt-based agent, `false` forces the native agent); otherwise the
model identifier (`modelName` when present and nonempty, else
`model.modelId`) is matched against the prompt-based pattern set first —
a match selects the prompt-based (text-convention) agent even if the
identifier also matches a native pattern — then against the
native-reasoning pattern set, and an identifier matching neither defaults
to the prompt-based agent. -/
theorem c9_mode_selection_order :
    (∀ mn mid, detectedNativeSupport (some true) mn mid = false) ∧
    (∀ mn mid, detectedNativeSupport (some false) mn mid = true) ∧
    (∀ id, promptBasedTest id = true → detectNativeToolSupport id = false) ∧
    (∀ id, promptBasedTest id = false → nativeReasoningTest id = true →
      detectNativeToolSupport id = true) ∧
    (∀ id, promptBasedTest id = false → nativeReasoningTest id = false →
      detectNativeToolSupport id = false) ∧
    (∀ mn mid, detectedNativeSupport none mn mid =
      detectNativeToolSupport
        (match mn with
         | some s => if !s.isEmpty then s else mid
         | none => mid)) := by
  refine ⟨fun _ _ => rfl, fun _ _ => rfl, ?_, ?_, ?_, fun _ _ => rfl⟩
  · intro id h
    simp [detectNativeToolSupport, h]
  · intro id h1 h2
    simp [detectNativeToolSupport, h1, h2]
  · intro id h1 h2
    simp [detectNativeToolSupport, h1, h2]

/-- C9 witness: `claude-3-deepseek` matches both pattern sets and the
prompt-based set wins; the explicit overrides win on any identifier; an
unknown identifier defaults to the prompt-based agent. -/
theorem c9_witness :
    promptBasedTest "claude-3-deepseek".toList = true ∧
    nativeReasoningTest "claude-3-deepseek".toList = true ∧
    detectNativeToolSupport "claude-3-deepseek".toList = false ∧
    detectedNativeSupport (some true) none "claude-3-opus".toList = false ∧
    detectedNativeSupport (some false) none "gpt-4o".toList = true ∧
    (promptBasedTest "my-own-model".toList = false ∧
      nativeReasoningTest "my-own-model".toList = false ∧
      detectNativeToolSupport "my-own-model".toList = false) :=
  ⟨rfl, rfl, c9_mode_selection_order.2.2.1 _ rfl,
    c9_mode_selection_order.1 none _,
    c9_mode_selection_order.2.1 none _,
    rfl, rfl, c9_mode_selection_order.2.2.2.2.1 _ rfl rfl⟩

theorem naChunk_mem (st : NAState) (c : Chunk) (e : Ev) (h : e ∈ (naChunk st c).1) :
    naStreamEv e = true := by
  cases c <;> simp only [naChunk] at h <;>
    (repeat' split at h) <;> simp_all [naStreamEv] <;>
    (repeat (first | rfl | (obtain rfl | h := h) | (obtain rfl := h)))

theorem naChunk_mem_noerr (st : NAState) (c : Chunk) (hc : chunkIsError c = false) (e : Ev)
    (h : e ∈ (naChunk st c).1) : naStreamEv e = true ∧ isErrorEv e = false := by
  refine ⟨naChunk_mem st c e h, ?_⟩
  cases c
  case error msg => simp [chunkIsError] at hc
  all_goals
    simp only [naChunk] at h <;>
    (repeat' split at h) <;> simp_all [isErrorEv] <;>
    (repeat (first | rfl | (obtain rfl | h := h) | (obtain rfl := h)))

theorem naChunks_mem (st : NAState) (cs : List Chunk) (e : Ev)
    (h : e ∈ (naChunks st cs).1) : naStreamEv e = true := by
  induction cs generalizing st with
  | nil => simp [naChunks] at h
  | cons c cs ih =>
    simp only [naChunks, List.mem_append] at h
    rcases h with h | h
    · exact naChunk_mem st c e h
    · exact ih _ h

theorem naChunks_mem_noerr (st : NAState) (cs : List Chunk)
    (hc : noErrorChunks cs = true) (e : Ev) (h : e ∈ (naChunks st cs).1) :
    naStreamEv e = true ∧ isErrorEv e = false := by
  induction cs generalizing st with
  | nil => simp [naChunks] at h
  | cons c cs ih =>
    simp only [noErrorChunks, List.all_cons, Bool.and_eq_true, Bool.not_eq_true'] at hc
    simp only [naChunks, List.mem_append] at h
    rcases h with h | h
    · exact naChunk_mem_noerr st c hc.1 e h
    · exact ih _ hc.2 h

theorem thinkPhaseEvents_mem (cs : List Chunk) (e : Ev) (h : e ∈ thinkPhaseEvents cs) :
    isThinkingEv e = true := by
  simp only [thinkPhaseEvents, List.mem_cons, List.mem_append, List.mem_filterMap,
    List.mem_singleton] at h
  rcases h with (rfl | ⟨c, -, hc⟩) | rfl | h
  · rfl
  · cases c <;> cases hc <;> rfl
  · rfl
  · simp at h

theorem emitResults_mem (ms : List Matcher) (rs : List AToolResult) (e : Ev)
    (h : e ∈ (emitResults ms rs).1) : isToolResultEv e = true ∨ isImmediateEv e = true := by
  induction rs with
  | nil => simp [emitResults] at h
  | cons r rs ih =>
    simp only [emitResults] at h
    split at h <;> simp only [List.mem_cons] at h <;>
      rcases h with rfl | h
    · left; rfl
    · rcases h with rfl | h
      · right; rfl
      · exact ih h
    · left; rfl
    · exact ih h

theorem execPhase_mem (ms : List Matcher) (par : Bool) (tool : ToolFn) (tcs : List AToolCall)
    (e : Ev) (h : e ∈ (execPhase ms par tool tcs).1) :
    isToolExecutingEv e = true ∨ isToolResultEv e = true ∨ isImmediateEv e = true := by
  rw [execPhase_split] at h
  simp only [List.mem_append, List.mem_map] at h
  rcases h with ⟨tc, _, rfl⟩ | h
  · left; rfl
  · right; exact emitResults_mem ms _ e h

theorem naStreamEv_kinds (e : Ev) (h : naStreamEv e = true) :
    isIterStartEv e = false ∧ isIterEndEv e = false ∧ isCompleteEv e = false ∧
    isToolResultEv e = false ∧ isImmediateEv e = false ∧ isTodoStartEv e = false := by
  cases e <;> simp_all [naStreamEv, isIterStartEv, isIterEndEv, isCompleteEv, isToolResultEv,
    isImmediateEv, isTodoStartEv]

theorem isThinkingEv_kinds (e : Ev) (h : isThinkingEv e = true) :
    isCoreEv e = false ∧ isToolResultEv e = false ∧ isImmediateEv e = false ∧
    isToolCallStartEv e = false ∧ isTodoStartEv e = false := by
  cases e <;> simp_all [isThinkingEv, isCoreEv, isIterStartEv, isIterEndEv, isCompleteEv,
    isErrorEv, isToolResultEv, isImmediateEv, isToolCallStartEv, isTodoStartEv]

theorem execPhase_kinds (ms : List Matcher) (par : Bool) (tool : ToolFn) (tcs : List AToolCall)
    (e : Ev) (h : e ∈ (execPhase ms par tool tcs).1) :
    isCoreEv e = false ∧ isIterStartEv e = false ∧ isToolCallStartEv e = false ∧
    isTodoStartEv e = false := by
  rcases execPhase_mem ms par tool tcs e h with h1 | h1 | h1 <;> cases e <;>
    simp_all [isToolExecutingEv, isToolResultEv, isImmediateEv, isCoreEv, isIterStartEv,
      isIterEndEv, isCompleteEv, isErrorEv, isToolCallStartEv, isTodoStartEv]

theorem naChunks_core_nil (st : NAState) (cs : List Chunk) (hc : noErrorChunks cs = true) :
    (naChunks st cs).1.filter isCoreEv = [] := by
  rw [List.filter_eq_nil_iff]
  intro e he
  obtain ⟨h1, h2⟩ := naChunks_mem_noerr st cs hc e he
  obtain ⟨k1, k2, k3, -⟩ := naStreamEv_kinds e h1
  simp [isCoreEv, k1, k2, k3, h2]

theorem execPhase_core_nil (ms : List Matcher) (par : Bool) (tool : ToolFn)
    (tcs : List AToolCall) : (execPhase ms par tool tcs).1.filter isCoreEv = [] := by
  rw [List.filter_eq_nil_iff]
  intro e he
  simp [(execPhase_kinds ms par tool tcs e he).1]

theorem thinkPhase_core_nil (cs : List Chunk) :
    (thinkPhaseEvents cs).filter isCoreEv = [] := by
  rw [List.filter_eq_nil_iff]
  intro e he
  simp [(isThinkingEv_kinds e (thinkPhaseEvents_mem cs e he)).1]

theorem matchImmediateResult_nil (r : Json) : matchImmediateResult [] r = false := rfl

theorem emitResults_nil_matchers (rs : List AToolResult) :
    (emitResults [] rs).2 = false := by
  rw [emitResults_flag]
  simp [matchImmediateResult_nil]

theorem runIters_core (cfg : AgentCfg) (script : Nat → List Chunk) (tool : ToolFn)
    (hm : cfg.immediateResultMatchers = []) (ht : cfg.enableThinkingPhase = false) :
    ∀ fuel iter callNo,
      (∀ k, k < fuel → ¬(naChunks naInit (script (callNo + k))).2.toolCalls.isEmpty ∧
        noErrorChunks (script (callNo + k)) = true) →
      (runIters cfg script tool fuel iter callNo).1.filter isCoreEv =
        corePairs fuel iter cfg.maxIterations ∧
      (runIters cfg script tool fuel iter callNo).2 = iter + fuel := by
  intro fuel
  induction fuel with
  | zero => intro iter callNo _; exact ⟨rfl, rfl⟩
  | succ fuel ih =>
    intro iter callNo hk
    obtain ⟨htc, hne⟩ := hk 0 (Nat.succ_pos fuel)
    simp only [runIters, iterThinkP, ht, Bool.false_and, if_false]
    rw [Nat.add_zero] at htc hne
    have hempty : (naChunks naInit (script callNo)).2.toolCalls.isEmpty = false :=
      Bool.eq_false_iff.2 htc
    simp only [hempty, Bool.false_eq_true, if_false]
    have hflag : (execPhase cfg.immediateResultMatchers cfg.parallelToolCalls tool
        (naChunks naInit (script callNo)).2.toolCalls).2 = false := by
      rw [execPhase_split, hm]
      exact emitResults_nil_matchers _
    simp only [hflag, Bool.false_eq_true, if_false]
    obtain ⟨ihf, ihn⟩ := ih (iter + 1) (callNo + 1) (fun k hlt => by
      have := hk (k + 1) (Nat.succ_lt_succ hlt)
      rwa [Nat.add_comm k 1, ← Nat.add_assoc] at this)
    constructor
    · simp only [List.filter_cons, List.filter_append]
      rw [naChunks_core_nil naInit (script callNo) hne, execPhase_core_nil, ihf]
      simp [corePairs, isCoreEv, isIterStartEv, isIterEndEv]
    · rw [ihn]; omega

/-- C1: with `maxIterations = 3`, empty immediate-result matchers, the
thinking phase off and a model collaborator whose every invocation yields
at least one recovered tool call and no error chunk, the turn's
`iteration_start`/`iteration_end`/`complete`/`error` events are exactly
three `iteration_start`/`iteration_end` pairs followed by one `complete`
carrying total iteration count 3 — never a fourth `iteration_start` and
never an `error` event. -/
theorem c1_three_iterations_then_complete (par hastools : Bool) (script : Nat → List Chunk)
    (tool : ToolFn)
    (h1 : ∀ i, i < 3 → ¬(naChunks naInit (script i)).2.toolCalls.isEmpty)
    (h2 : ∀ i, i < 3 → noErrorChunks (script i) = true) :
    (agentChatStream ⟨3, par, [], false, hastools⟩ script tool).filter isCoreEv =
      [Ev.iterationStart 1 3, Ev.iterationEnd 1, Ev.iterationStart 2 3, Ev.iterationEnd 2,
       Ev.iterationStart 3 3, Ev.iterationEnd 3, Ev.complete 3] := by
  obtain ⟨hf, hn⟩ := runIters_core ⟨3, par, [], false, hastools⟩ script tool rfl rfl 3 0 0
    (fun k hk => by rw [Nat.zero_add]; exact ⟨h1 k hk, h2 k hk⟩)
  simp only [agentChatStream, List.filter_append, hf, hn]
  rfl

/-- C1 witness: the constant one-tool-call script with `maxIterations = 3`
emits exactly the three pairs and the final `complete`. -/
theorem c1_witness :
    (agentChatStream ⟨3, true, [], false, true⟩ scriptAlwaysTool toolAlwaysOk).filter isCoreEv =
      [Ev.iterationStart 1 3, Ev.iterationEnd 1, Ev.iterationStart 2 3, Ev.iterationEnd 2,
       Ev.iterationStart 3 3, Ev.iterationEnd 3, Ev.complete 3] :=
  c1_three_iterations_then_complete true true scriptAlwaysTool toolAlwaysOk
    (fun i _ => by simp [scriptAlwaysTool, naChunks, naChunk, naInit, List.isEmpty])
    (fun i _ => rfl)


theorem foldl_niasi_inert (l : List Ev)
    (h : ∀ e ∈ l, isIterStartEv e = false ∧ isImmediateEv e = false) :
    ∀ s : Bool × Bool, l.foldl noIterStartAfterImmStep s = s := by
  induction l with
  | nil => intro s; rfl
  | cons e l ih =>
    intro s
    have he := h e (List.mem_cons_self e l)
    have hstep : noIterStartAfterImmStep s e = s := by
      cases e <;> first
      | rfl
      | exact Bool.noConfusion he.1
      | exact Bool.noConfusion he.2
    rw [List.foldl_cons, hstep, ih (fun x hx => h x (List.mem_cons_of_mem e hx))]

theorem foldl_niasi_ok (l : List Ev) (h : ∀ e ∈ l, isIterStartEv e = false) :
    ∀ s : Bool × Bool, (l.foldl noIterStartAfterImmStep s).2 = s.2 := by
  induction l with
  | nil => intro s; rfl
  | cons e l ih =>
    intro s
    have he := h e (List.mem_cons_self e l)
    rw [List.foldl_cons, ih (fun x hx => h x (List.mem_cons_of_mem e hx))]
    cases e <;> first
    | rfl
    | exact Bool.noConfusion he

theorem emitResults_no_imm (ms : List Matcher) (rs : List AToolResult)
    (hf : (emitResults ms rs).2 = false) :
    ∀ e ∈ (emitResults ms rs).1, isImmediateEv e = false := by
  induction rs with
  | nil => intro e he; simp [emitResults] at he
  | cons r rs ih =>
    intro e he
    simp only [emitResults, Bool.or_eq_false_iff] at hf
    simp only [emitResults, hf.1, Bool.false_eq_true, if_false, List.mem_cons] at he
    rcases he with rfl | he
    · rfl
    · exact ih hf.2 e he

theorem isCoreEv_false_parts (e : Ev) (h : isCoreEv e = false) :
    isIterStartEv e = false := by
  simp only [isCoreEv, Bool.or_eq_false_iff] at h
  exact h.1.1.1

theorem iterThinkP_inert (cfg : AgentCfg) (script : Nat → List Chunk) (callNo : Nat) :
    ∀ e ∈ (iterThinkP cfg script callNo).1,
      isIterStartEv e = false ∧ isImmediateEv e = false := by
  intro e he
  unfold iterThinkP at he
  split at he
  · have h1 := isThinkingEv_kinds e (thinkPhaseEvents_mem (script callNo) e he)
    exact ⟨isCoreEv_false_parts e h1.1, h1.2.2.1⟩
  · simp at he

theorem naChunks_inert (st : NAState) (cs : List Chunk) :
    ∀ e ∈ (naChunks st cs).1, isIterStartEv e = false ∧ isImmediateEv e = false := by
  intro e he
  have h1 := naStreamEv_kinds e (naChunks_mem st cs e he)
  exact ⟨h1.1, h1.2.2.2.2.1⟩

theorem execPhase_imm_inert (ms : List Matcher) (par : Bool) (tool : ToolFn)
    (tcs : List AToolCall) (hflag : (execPhase ms par tool tcs).2 = false) :
    ∀ e ∈ (execPhase ms par tool tcs).1,
      isIterStartEv e = false ∧ isImmediateEv e = false := by
  intro e he
  refine ⟨(execPhase_kinds ms par tool tcs e he).2.1, ?_⟩
  rw [execPhase_split] at he
  rcases List.mem_append.1 he with he | he
  · rcases List.mem_map.1 he with ⟨tc, -, rfl⟩
    rfl
  · refine emitResults_no_imm ms _ ?_ e he
    rw [execPhase_split] at hflag
    exact hflag

theorem runIters_niasi (cfg : AgentCfg) (script : Nat → List Chunk) (tool : ToolFn) :
    ∀ fuel iter callNo,
      ((runIters cfg script tool fuel iter callNo).1.foldl noIterStartAfterImmStep
        (false, true)).2 = true := by
  intro fuel
  induction fuel with
  | zero => intro iter callNo; rfl
  | succ fuel ih =>
    intro iter callNo
    simp only [runIters]
    by_cases h1 :
        (naChunks naInit (script (iterThinkP cfg script callNo).2)).2.toolCalls.isEmpty = true
    · rw [if_pos h1]
      dsimp only
      simp only [List.foldl_append, List.foldl_cons, List.foldl_nil]
      rw [foldl_niasi_inert _ (iterThinkP_inert cfg script callNo),
        foldl_niasi_inert _ (naChunks_inert naInit _)]
      rfl
    · rw [if_neg h1]
      by_cases h2 : (execPhase cfg.immediateResultMatchers cfg.parallelToolCalls tool
          (naChunks naInit (script (iterThinkP cfg script callNo).2)).2.toolCalls).2 = true
      · rw [if_pos h2]
        dsimp only
        simp only [List.foldl_append, List.foldl_cons, List.foldl_nil]
        rw [foldl_niasi_inert _ (iterThinkP_inert cfg script callNo),
          foldl_niasi_inert _ (naChunks_inert naInit _)]
        have h3 : ∀ x : Bool × Bool,
            (noIterStartAfterImmStep x (Ev.iterationEnd (iter + 1))).2 = x.2 := fun _ => rfl
        rw [h3, foldl_niasi_ok _ (fun e he => (execPhase_kinds _ _ _ _ e he).2.1)]
        rfl
      · rw [if_neg h2]
        dsimp only
        simp only [List.foldl_append, List.foldl_cons, List.foldl_nil]
        rw [foldl_niasi_inert _ (iterThinkP_inert cfg script callNo),
          foldl_niasi_inert _ (naChunks_inert naInit _),
          foldl_niasi_inert _ (execPhase_imm_inert _ _ _ _ (Bool.eq_false_iff.2 h2))]
        exact ih (iter + 1) _

theorem immRecords_length (l : List Ev) :
    (immRecords l).length = l.countP isImmediateEv := by
  induction l with
  | nil => rfl
  | cons e l ih =>
    cases e <;> simp [immRecords, List.filterMap_cons, List.countP_cons, isImmediateEv] <;>
      simp [immRecords] at ih <;> omega

theorem noIterStartAfterImm_run (cfg : AgentCfg) (script : Nat → List Chunk) (tool : ToolFn) :
    noIterStartAfterImm (agentChatStream cfg script tool) = true := by
  unfold noIterStartAfterImm agentChatStream
  rw [List.foldl_append, List.foldl_cons, List.foldl_nil]
  have hc : ∀ x : Bool × Bool, ∀ n,
      noIterStartAfterImmStep x (Ev.complete n) = x := fun _ _ => rfl
  rw [hc]
  exact runIters_niasi cfg script tool cfg.maxIterations 0 0

/-- C4: when a tool result of one iteration matches a configured
immediate-result matcher (which requires the call to have succeeded),
every call issued in that iteration still emits its `tool_result` event
(`N` results for `N` calls), at least one `immediate_result` event is
emitted and the turn-ending flag is set; and across every turn of
`Agent.chatStream`, no `iteration_start` — hence no further model
invocation — ever follows an `immediate_result` event. -/
theorem c4_immediate_short_circuit (ms : List Matcher) (par : Bool) (tool : ToolFn)
    (tcs : List AToolCall)
    (h : ∃ tc ∈ tcs, ∃ v, tool tc.toolName tc.args = Except.ok v ∧
      matchImmediateResult ms v = true) :
    (execPhase ms par tool tcs).1.countP isToolResultEv = tcs.length ∧
    1 ≤ (execPhase ms par tool tcs).1.countP isImmediateEv ∧
    (execPhase ms par tool tcs).2 = true ∧
    ∀ cfg script tool2, noIterStartAfterImm (agentChatStream cfg script tool2) = true := by
  obtain ⟨tc, htc, v, hok, hmatch⟩ := h
  refine ⟨?_, ?_, ?_, fun cfg script tool2 => noIterStartAfterImm_run cfg script tool2⟩
  · rw [execPhase_split]
    simp [List.countP_append, emitResults_countTR,
      countP_te isToolResultEv (fun _ _ _ => rfl) tcs]
  · rw [← immRecords_length, execPhase_immRecords]
    have hmem : (tc.toolCallId, tc.toolName, v) ∈ tcs.filterMap (fun tc =>
        match tool tc.toolName tc.args with
        | .ok v =>
          if matchImmediateResult ms v then some (tc.toolCallId, tc.toolName, v) else none
        | .error _ => none) :=
      List.mem_filterMap.2 ⟨tc, htc, by rw [hok]; simp [hmatch]⟩
    exact List.length_pos_of_mem hmem
  · rw [execPhase_split, emitResults_flag]
    refine List.any_eq_true.2 ⟨execOne tool tc, List.mem_map_of_mem _ htc, ?_⟩
    unfold execOne
    rw [hok]
    simpa using hmatch

/-- C4 witness: with the `card` matcher, two calls of which the first
rejects (with a message that would itself match) and the second returns a
matching object, both `tool_result` events are emitted, an
`immediate_result` event fires, and no turn of `Agent.chatStream` ever has
an `iteration_start` after an `immediate_result`. -/
theorem c4_witness :
    (∃ tc ∈ callsCard, ∃ v, toolCardOrFail tc.toolName tc.args = Except.ok v ∧
      matchImmediateResult [matcherCard] v = true) ∧
    (execPhase [matcherCard] true toolCardOrFail callsCard).1.countP isToolResultEv = 2 ∧
    1 ≤ (execPhase [matcherCard] true toolCardOrFail callsCard).1.countP isImmediateEv ∧
    noIterStartAfterImm (agentChatStream cfgThree scriptAlwaysTool toolCardOrFail) = true := by
  have h : ∃ tc ∈ callsCard, ∃ v, toolCardOrFail tc.toolName tc.args = Except.ok v ∧
      matchImmediateResult [matcherCard] v = true :=
    ⟨⟨"b".toList, "t2".toList, Json.obj []⟩, by simp [callsCard], resultCard, rfl, rfl⟩
  obtain ⟨h1, h2, h3, h4⟩ := c4_immediate_short_circuit [matcherCard] true toolCardOrFail
    callsCard h
  exact ⟨h, h1, h2, h4 cfgThree scriptAlwaysTool toolCardOrFail⟩

theorem mem_ite_nil {α : Type} {c : Prop} [Decidable c] {l : List α} {e : α}
    (h : e ∈ if c then l else []) : e ∈ l := by
  split at h
  · exact h
  · exact absurd h (List.not_mem_nil e)

theorem pbMarkerStep_mem (st : PBState) (kind : MarkerKind) (pos : Nat) (e : Ev)
    (h : e ∈ (pbMarkerStep st kind pos).1) : isTodoStartEv e = false := by
  unfold pbMarkerStep at h
  dsimp only at h
  (repeat' split at h) <;>
    (repeat (first
      | rfl
      | (obtain rfl | h := h)
      | (obtain rfl := h)
      | (rcases List.mem_append.1 h with h | h)
      | (replace h := mem_ite_nil h)
      | (rcases List.mem_cons.1 h with rfl | h)
      | exact absurd h (List.not_mem_nil e)))

theorem pbMarkerStep_flag (st : PBState) (kind : MarkerKind) (pos : Nat) :
    (pbMarkerStep st kind pos).2.1.hasTodoCreated = st.hasTodoCreated := by
  unfold pbMarkerStep
  dsimp only
  repeat' split
  all_goals rfl

theorem pbStepNormal_mem (st : PBState) (e : Ev) (h : e ∈ (pbStepNormal st).1) :
    isTodoStartEv e = false := by
  unfold pbStepNormal at h
  dsimp only at h
  (repeat' split at h) <;>
    first
    | exact pbMarkerStep_mem st _ _ e h
    | (repeat (first
        | rfl
        | (obtain rfl | h := h)
        | (obtain rfl := h)
        | (rcases List.mem_append.1 h with h | h)
        | (replace h := mem_ite_nil h)
        | (rcases List.mem_cons.1 h with rfl | h)
        | exact absurd h (List.not_mem_nil e)))

theorem pbStepNormal_flag (st : PBState) :
    (pbStepNormal st).2.1.hasTodoCreated = st.hasTodoCreated := by
  unfold pbStepNormal
  dsimp only
  repeat' split
  all_goals first
  | rfl
  | exact pbMarkerStep_flag st _ _

theorem todoItemAdds_countP (tid : Str) (items : List Str) :
    (items.enum.map (fun p => Ev.todoItemAdd tid (Nat.toDigits 10 (p.1 + 1)) p.2)).countP
      isTodoStartEv = 0 := by
  rw [List.countP_map]
  exact List.countP_eq_zero.2 (fun a _ => by simp [Function.comp, isTodoStartEv])

theorem pbStep_todo (st : PBState) :
    (pbStep st).1.countP isTodoStartEv + (!(pbStep st).2.1.hasTodoCreated).toNat ≤
      (!st.hasTodoCreated).toNat := by
  unfold pbStep
  dsimp only
  split
  · have h0 : (pbStepNormal st).1.countP isTodoStartEv = 0 :=
      List.countP_eq_zero.2 (fun a ha => by simp [pbStepNormal_mem st a ha])
    rw [h0, pbStepNormal_flag st]
    simp
  all_goals (repeat' split) <;>
    simp_all [List.countP_append, List.countP_cons, List.countP_nil, isTodoStartEv,
      todoItemAdds_countP]

theorem pbLoop_todo (fuel : Nat) (st : PBState) :
    (pbLoop fuel st).1.countP isTodoStartEv + (!(pbLoop fuel st).2.hasTodoCreated).toNat ≤
      (!st.hasTodoCreated).toNat := by
  induction fuel generalizing st with
  | zero => simp [pbLoop]
  | succ n ih =>
    unfold pbLoop
    dsimp only
    split
    · simp
    · split
      · have h1 := ih (pbStep st).2.1
        have h2 := pbStep_todo st
        simp only [List.countP_append]
        omega
      · exact pbStep_todo st

theorem pbFeedText_todo (st : PBState) (d : Str) :
    (pbFeedText st d).1.countP isTodoStartEv + (!(pbFeedText st d).2.hasTodoCreated).toNat ≤
      (!st.hasTodoCreated).toNat := by
  unfold pbFeedText
  dsimp only
  split <;> (repeat' split) <;>
    simp only [List.countP_append, List.countP_cons, List.countP_nil, isTodoStartEv,
      Bool.false_eq_true, if_false, Nat.zero_add] <;>
    exact pbLoop_todo _ _

theorem pbChunk_todo (st : PBState) (c : Chunk) :
    (pbChunk st c).1.countP isTodoStartEv + (!(pbChunk st c).2.hasTodoCreated).toNat ≤
      (!st.hasTodoCreated).toNat := by
  cases c with
  | textDelta d => exact pbFeedText_todo st d
  | _ =>
    unfold pbChunk
    dsimp only
    (repeat' split) <;>
      simp [List.countP_append, List.countP_cons, List.countP_nil, isTodoStartEv]

theorem pbChunks_todo (st : PBState) (cs : List Chunk) :
    (pbChunks st cs).1.countP isTodoStartEv + (!(pbChunks st cs).2.hasTodoCreated).toNat ≤
      (!st.hasTodoCreated).toNat := by
  induction cs generalizing st with
  | nil => simp [pbChunks]
  | cons c cs ih =>
    unfold pbChunks
    dsimp only
    have h1 := pbChunk_todo st c
    have h2 := ih (pbChunk st c).2
    simp only [List.countP_append]
    omega

theorem pbIter_todo_le_one (cs : List Chunk) :
    (pbChunks pbInit cs).1.countP isTodoStartEv ≤ 1 := by
  have h := pbChunks_todo pbInit cs
  have h0 : (!pbInit.hasTodoCreated).toNat = 1 := rfl
  rw [h0] at h
  omega

theorem pbRunIters_todo (maxIter : Nat) (script : Nat → List Chunk) (tool : ToolFn)
    (fuel iter : Nat) :
    (pbRunIters maxIter script tool fuel iter).1.countP isTodoStartEv ≤
      (pbRunIters maxIter script tool fuel iter).1.countP isIterStartEv := by
  induction fuel generalizing iter with
  | zero => simp [pbRunIters]
  | succ n ih =>
    unfold pbRunIters
    dsimp only
    split <;>
      simp [List.countP_append, List.countP_cons, List.countP_nil,
        isTodoStartEv, isIterStartEv] <;>
      have h1 := pbIter_todo_le_one (script iter)
    · have h2 := ih (iter + 1)
      omega
    · omega

/-- C5: the claim "exactly one todo_start per turn" fails across iterations:
with a model script that opens a checklist block in every iteration, a
2-iteration turn emits two todo_start events, because `hasTodoCreated` is
declared inside the iteration loop of `PromptBasedAgent.chatStream` and so
resets on every iteration. -/
theorem c5_counterexample :
    (pbChatStream 2 scriptTodoEach toolAlwaysOk).countP isTodoStartEv = 2 := by
  decide

/-- C5 (amended): checklist creation is idempotent only within a single
iteration: every turn of `PromptBasedAgent.chatStream` emits at most one
todo_start per iteration_start, and a model output holding two checklist
blocks in the same iteration yields exactly one todo_start. -/
theorem c5_todo_once_per_iteration :
    (∀ (maxIter : Nat) (script : Nat → List Chunk) (tool : ToolFn),
      (pbChatStream maxIter script tool).countP isTodoStartEv ≤
        (pbChatStream maxIter script tool).countP isIterStartEv) ∧
    (pbChatStream 3 scriptTodoTwice toolAlwaysOk).countP isTodoStartEv = 1 := by
  constructor
  · intro maxIter script tool
    unfold pbChatStream
    dsimp only
    simp [List.countP_append, List.countP_cons, List.countP_nil,
      isTodoStartEv, isIterStartEv]
    have := pbRunIters_todo maxIter script tool maxIter 0
    omega
  · decide

theorem trIds_append (a b : List Ev) : trIds (a ++ b) = trIds a ++ trIds b := by
  simp [trIds]

theorem tcsIds_append (a b : List Ev) : tcsIds (a ++ b) = tcsIds a ++ tcsIds b := by
  simp [tcsIds]

theorem trIds_cons_is (a b : Nat) (l : List Ev) :
    trIds (Ev.iterationStart a b :: l) = trIds l := by
  simp [trIds]

theorem trIds_cons_ie (a : Nat) (l : List Ev) :
    trIds (Ev.iterationEnd a :: l) = trIds l := by
  simp [trIds]

theorem trIds_cons_complete (a : Nat) (l : List Ev) :
    trIds (Ev.complete a :: l) = trIds l := by
  simp [trIds]

theorem tcsIds_cons_is (a b : Nat) (l : List Ev) :
    tcsIds (Ev.iterationStart a b :: l) = tcsIds l := by
  simp [tcsIds]

theorem tcsIds_cons_ie (a : Nat) (l : List Ev) :
    tcsIds (Ev.iterationEnd a :: l) = tcsIds l := by
  simp [tcsIds]

theorem tcsIds_cons_complete (a : Nat) (l : List Ev) :
    tcsIds (Ev.complete a :: l) = tcsIds l := by
  simp [tcsIds]

theorem trIds_nil : trIds [] = [] := rfl

theorem tcsIds_nil : tcsIds [] = [] := rfl

theorem naChunk_trIds (st : NAState) (c : Chunk) : trIds (naChunk st c).1 = [] := by
  cases c <;> unfold naChunk <;> dsimp only <;> (repeat' split) <;> simp [trIds]

theorem naChunk_sent (st : NAState) (c : Chunk) :
    (naChunk st c).2.sentToolCallStarts = st.sentToolCallStarts ++ tcsIds (naChunk st c).1 := by
  cases c <;> unfold naChunk <;> dsimp only <;> (repeat' split) <;> simp [tcsIds]

theorem naChunk_fresh (st : NAState) (c : Chunk) :
    ∀ id ∈ tcsIds (naChunk st c).1, id ∉ st.sentToolCallStarts ∧ id ∈ chunkIds c := by
  cases c <;> unfold naChunk <;> dsimp only <;> (repeat' split) <;>
    simp_all [tcsIds, chunkIds]

theorem naChunk_nodup (st : NAState) (c : Chunk) : (tcsIds (naChunk st c).1).Nodup := by
  cases c <;> unfold naChunk <;> dsimp only <;> (repeat' split) <;> simp [tcsIds]

theorem naChunk_toolCalls (st : NAState) (c : Chunk) :
    ∃ δ, (naChunk st c).2.toolCalls = st.toolCalls ++ δ ∧
      List.Sublist (δ.map AToolCall.toolCallId) (tcsIds (naChunk st c).1) := by
  cases c <;> unfold naChunk <;> dsimp only <;> (repeat' split) <;>
    first
      | exact ⟨[], (List.append_nil _).symm, List.nil_sublist _⟩
      | exact ⟨_, rfl, List.Sublist.refl _⟩

theorem chunkToolIds_cons (c : Chunk) (cs : List Chunk) :
    chunkToolIds (c :: cs) = chunkIds c ++ chunkToolIds cs := by
  simp [chunkToolIds]

theorem naChunks_trIds (cs : List Chunk) : ∀ st, trIds (naChunks st cs).1 = [] := by
  induction cs with
  | nil => intro st; simp [naChunks, trIds]
  | cons c cs ih =>
    intro st
    unfold naChunks
    dsimp only
    rw [trIds_append, naChunk_trIds, ih]
    rfl

theorem naChunks_fresh (cs : List Chunk) : ∀ st,
    (∀ id ∈ tcsIds (naChunks st cs).1,
        id ∉ st.sentToolCallStarts ∧ id ∈ chunkToolIds cs) ∧
    (tcsIds (naChunks st cs).1).Nodup := by
  induction cs with
  | nil => intro st; simp [naChunks, tcsIds]
  | cons c cs ih =>
    intro st
    unfold naChunks
    dsimp only
    rw [tcsIds_append]
    constructor
    · intro id hid
      rcases List.mem_append.1 hid with h | h
      · have h2 := naChunk_fresh st c id h
        exact ⟨h2.1, by rw [chunkToolIds_cons]; exact List.mem_append.2 (Or.inl h2.2)⟩
      · have h2 := (ih (naChunk st c).2).1 id h
        refine ⟨?_, by rw [chunkToolIds_cons]; exact List.mem_append.2 (Or.inr h2.2)⟩
        intro hm
        exact h2.1 (by rw [naChunk_sent]; exact List.mem_append.2 (Or.inl hm))
    · refine List.Nodup.append (naChunk_nodup st c) (ih _).2 ?_
      intro id h1 h2
      have h3 := (ih (naChunk st c).2).1 id h2
      apply h3.1
      rw [naChunk_sent]
      exact List.mem_append.2 (Or.inr h1)

theorem naChunks_toolCalls (cs : List Chunk) : ∀ st,
    ∃ δ, (naChunks st cs).2.toolCalls = st.toolCalls ++ δ ∧
      List.Sublist (δ.map AToolCall.toolCallId) (tcsIds (naChunks st cs).1) := by
  induction cs with
  | nil =>
    intro st
    exact ⟨[], (List.append_nil _).symm, List.nil_sublist _⟩
  | cons c cs ih =>
    intro st
    unfold naChunks
    dsimp only
    obtain ⟨d1, he1, hs1⟩ := naChunk_toolCalls st c
    obtain ⟨d2, he2, hs2⟩ := ih (naChunk st c).2
    refine ⟨d1 ++ d2, ?_, ?_⟩
    · rw [he2, he1, List.append_assoc]
    · rw [tcsIds_append, List.map_append]
      exact List.Sublist.append hs1 hs2

theorem execOne_id (tool : ToolFn) (tc : AToolCall) :
    (execOne tool tc).toolCallId = tc.toolCallId := by
  unfold execOne
  cases tool tc.toolName tc.args <;> rfl

theorem trIds_emitResults (ms : List Matcher) (rs : List AToolResult) :
    trIds (emitResults ms rs).1 = rs.map AToolResult.toolCallId := by
  induction rs with
  | nil => rfl
  | cons r rs ih =>
    simp only [emitResults]
    split <;> simp [trIds, List.filterMap_cons] <;> simpa [trIds] using ih

theorem tcsIds_emitResults (ms : List Matcher) (rs : List AToolResult) :
    tcsIds (emitResults ms rs).1 = [] := by
  induction rs with
  | nil => rfl
  | cons r rs ih =>
    simp only [emitResults]
    split <;> simp [tcsIds, List.filterMap_cons] <;> simpa [tcsIds] using ih

theorem trIds_te (tcs : List AToolCall) :
    trIds (tcs.map (fun tc => Ev.toolExecuting tc.toolCallId tc.toolName tc.args)) = [] := by
  rw [trIds, List.filterMap_map]
  exact List.filterMap_eq_nil_iff.2 (fun a _ => rfl)

theorem tcsIds_te (tcs : List AToolCall) :
    tcsIds (tcs.map (fun tc => Ev.toolExecuting tc.toolCallId tc.toolName tc.args)) = [] := by
  rw [tcsIds, List.filterMap_map]
  exact List.filterMap_eq_nil_iff.2 (fun a _ => rfl)

theorem trIds_execPhase (ms : List Matcher) (par : Bool) (tool : ToolFn)
    (tcs : List AToolCall) :
    trIds (execPhase ms par tool tcs).1 = tcs.map AToolCall.toolCallId := by
  rw [execPhase_split]
  dsimp only
  rw [trIds_append, trIds_te, trIds_emitResults, List.nil_append, List.map_map]
  exact List.map_congr_left (fun tc _ => execOne_id tool tc)

theorem tcsIds_execPhase (ms : List Matcher) (par : Bool) (tool : ToolFn)
    (tcs : List AToolCall) :
    tcsIds (execPhase ms par tool tcs).1 = [] := by
  rw [execPhase_split]
  dsimp only
  rw [tcsIds_append, tcsIds_te, tcsIds_emitResults]
  rfl

theorem trIds_think (cs : List Chunk) : trIds (thinkPhaseEvents cs) = [] := by
  unfold thinkPhaseEvents trIds
  simp only [List.filterMap_cons, List.filterMap_append, List.filterMap_filterMap]
  have h1 : ∀ c : Chunk, c ∈ cs →
      ((fun c : Chunk =>
        match c with
        | .textDelta d => some (Ev.thinkingDelta d)
        | _ => none) c).bind
        (fun e : Ev =>
          match e with
          | .toolResult id _ _ _ => some id
          | _ => none) = none := by
    intro c _
    cases c <;> rfl
  simp [List.filterMap_eq_nil_iff.2 h1]

theorem tcsIds_think (cs : List Chunk) : tcsIds (thinkPhaseEvents cs) = [] := by
  unfold thinkPhaseEvents tcsIds
  simp only [List.filterMap_cons, List.filterMap_append, List.filterMap_filterMap]
  have h1 : ∀ c : Chunk, c ∈ cs →
      ((fun c : Chunk =>
        match c with
        | .textDelta d => some (Ev.thinkingDelta d)
        | _ => none) c).bind
        (fun e : Ev =>
          match e with
          | .toolCallStart id _ _ => some id
          | _ => none) = none := by
    intro c _
    cases c <;> rfl
  simp [List.filterMap_eq_nil_iff.2 h1]

theorem iterThinkP_trIds (cfg : AgentCfg) (script : Nat → List Chunk) (callNo : Nat) :
    trIds (iterThinkP cfg script callNo).1 = [] := by
  unfold iterThinkP
  split
  · exact trIds_think _
  · rfl

theorem iterThinkP_tcsIds (cfg : AgentCfg) (script : Nat → List Chunk) (callNo : Nat) :
    tcsIds (iterThinkP cfg script callNo).1 = [] := by
  unfold iterThinkP
  split
  · exact tcsIds_think _
  · rfl

theorem iterThinkP_le (cfg : AgentCfg) (script : Nat → List Chunk) (callNo : Nat) :
    callNo ≤ (iterThinkP cfg script callNo).2 := by
  unfold iterThinkP
  split <;> simp

theorem tcsStep_is (acc : List Str × Bool) (a b : Nat) :
    tcsBeforeTrStep acc (Ev.iterationStart a b) = acc := rfl

theorem tcsStep_ie (acc : List Str × Bool) (a : Nat) :
    tcsBeforeTrStep acc (Ev.iterationEnd a) = acc := rfl

theorem tcsStep_complete (acc : List Str × Bool) (a : Nat) :
    tcsBeforeTrStep acc (Ev.complete a) = acc := rfl

theorem foldl_tcs_no_tr (l : List Ev) (h : trIds l = []) (acc : List Str × Bool) :
    l.foldl tcsBeforeTrStep acc = (acc.1 ++ tcsIds l, acc.2) := by
  induction l generalizing acc with
  | nil => simp [tcsIds]
  | cons e l ih =>
    rw [List.foldl_cons]
    cases e <;>
      simp only [trIds, List.filterMap_cons] at h <;>
      simp only [tcsIds, List.filterMap_cons] <;>
      first
      | exact absurd h (List.cons_ne_nil _ _)
      | (rw [ih (by simpa [trIds] using h)]
         rfl)
      | (rw [ih (by simpa [trIds] using h)]
         simp [tcsBeforeTrStep, tcsIds])

theorem foldl_tcs_no_tcs (l : List Ev) (h : tcsIds l = []) (acc : List Str × Bool) :
    l.foldl tcsBeforeTrStep acc =
      (acc.1, acc.2 && (trIds l).all (fun id => acc.1.count id == 1)) := by
  induction l generalizing acc with
  | nil => simp [trIds]
  | cons e l ih =>
    rw [List.foldl_cons]
    cases e <;>
      simp only [tcsIds, List.filterMap_cons] at h <;>
      simp only [trIds, List.filterMap_cons] <;>
      first
      | exact absurd h (List.cons_ne_nil _ _)
      | (rw [ih (by simpa [tcsIds] using h)]
         rfl)
      | (rw [ih (by simpa [tcsIds] using h)]
         simp [tcsBeforeTrStep, trIds, List.all_cons, Bool.and_assoc])

theorem isSubseqB_of_sublist : ∀ (ys xs : List Str), List.Sublist xs ys → isSubseqB xs ys = true := by
  intro ys
  induction ys with
  | nil =>
    intro xs h
    rw [List.sublist_nil.1 h]
    rfl
  | cons y ys ih =>
    intro xs h
    cases xs with
    | nil => rfl
    | cons x xs =>
      unfold isSubseqB
      by_cases hxy : x = y
      · subst hxy
        simp only [beq_self_eq_true, if_true]
        exact ih xs (List.cons_sublist_cons.1 h)
      · have hb : (x == y) = false := beq_eq_false_iff_ne.2 hxy
        rw [hb]
        simp only [Bool.false_eq_true, if_false]
        rcases List.sublist_cons_iff.1 h with h2 | ⟨r, hr, hr2⟩
        · exact ih _ h2
        · injection hr with h1 h2
          exact absurd h1 hxy

theorem runIters_sublist (cfg : AgentCfg) (script : Nat → List Chunk) (tool : ToolFn) :
    ∀ (fuel iter callNo : Nat),
      List.Sublist (trIds (runIters cfg script tool fuel iter callNo).1)
        (tcsIds (runIters cfg script tool fuel iter callNo).1) := by
  intro fuel
  induction fuel with
  | zero =>
    intro iter callNo
    exact List.nil_sublist _
  | succ n ih =>
    intro iter callNo
    unfold runIters
    dsimp only
    split
    · simp only [List.cons_append, List.append_assoc, trIds_append, tcsIds_append,
        trIds_cons_is, tcsIds_cons_is, trIds_cons_ie, tcsIds_cons_ie, trIds_nil, tcsIds_nil,
        List.append_nil, List.nil_append, iterThinkP_trIds, iterThinkP_tcsIds, naChunks_trIds]
      exact List.nil_sublist _
    · obtain ⟨δ, he, hs⟩ :=
        naChunks_toolCalls (script (iterThinkP cfg script callNo).2) naInit
      rw [show naInit.toolCalls = [] from rfl, List.nil_append] at he
      split <;>
        simp only [List.cons_append, List.append_assoc, trIds_append, tcsIds_append,
          trIds_cons_is, tcsIds_cons_is, trIds_cons_ie, tcsIds_cons_ie, trIds_nil, tcsIds_nil,
          List.append_nil, List.nil_append, iterThinkP_trIds, iterThinkP_tcsIds,
          naChunks_trIds, trIds_execPhase, tcsIds_execPhase]
      · rw [he]
        exact hs
      · rw [he]
        exact List.Sublist.append hs (ih _ _)

theorem count_eq_one_of_nodup_mem {α : Type} [BEq α] [LawfulBEq α] {l : List α} {a : α}
    (hn : l.Nodup) (hm : a ∈ l) : l.count a = 1 := by
  induction l with
  | nil => cases hm
  | cons b l ih =>
    rw [List.count_cons]
    rcases List.mem_cons.1 hm with rfl | hm2
    · rw [List.count_eq_zero.2 (List.nodup_cons.1 hn).1]
      simp
    · have hne : a ≠ b := by
        rintro rfl
        exact (List.nodup_cons.1 hn).1 hm2
      rw [ih (List.nodup_cons.1 hn).2 hm2, beq_eq_false_iff_ne.2 (Ne.symm hne)]
      simp

theorem runIters_tcsOk (cfg : AgentCfg) (script : Nat → List Chunk) (tool : ToolFn)
    (hdisj : ∀ i j : Nat, i ≠ j → ∀ id, id ∈ chunkToolIds (script i) →
      id ∉ chunkToolIds (script j)) :
    ∀ (fuel iter callNo : Nat) (seen : List Str),
      (∀ id ∈ seen, ∃ k, k < callNo ∧ id ∈ chunkToolIds (script k)) →
      (((runIters cfg script tool fuel iter callNo).1).foldl tcsBeforeTrStep (seen, true)).2 =
        true := by
  intro fuel
  induction fuel with
  | zero =>
    intro iter callNo seen hseen
    rfl
  | succ n ih =>
    intro iter callNo seen hseen
    have hfresh := naChunks_fresh (script (iterThinkP cfg script callNo).2) naInit
    have hcount : ∀ id ∈ trIds (execPhase cfg.immediateResultMatchers cfg.parallelToolCalls
        tool (naChunks naInit (script (iterThinkP cfg script callNo).2)).2.toolCalls).1,
        ((seen ++ tcsIds (naChunks naInit (script (iterThinkP cfg script callNo).2)).1).count id
          == 1) = true := by
      intro id hid
      rw [trIds_execPhase] at hid
      obtain ⟨δ, he, hs⟩ := naChunks_toolCalls (script (iterThinkP cfg script callNo).2) naInit
      rw [show naInit.toolCalls = [] from rfl, List.nil_append] at he
      rw [he] at hid
      have hidS : id ∈ tcsIds (naChunks naInit (script (iterThinkP cfg script callNo).2)).1 :=
        hs.subset hid
      have hchunk : id ∈ chunkToolIds (script (iterThinkP cfg script callNo).2) :=
        (hfresh.1 id hidS).2
      have hseen0 : id ∉ seen := by
        intro hm
        obtain ⟨k, hk, hkc⟩ := hseen id hm
        have hne : k ≠ (iterThinkP cfg script callNo).2 :=
          Nat.ne_of_lt (lt_of_lt_of_le hk (iterThinkP_le cfg script callNo))
        exact hdisj k (iterThinkP cfg script callNo).2 hne id hkc hchunk
      rw [List.count_append, List.count_eq_zero.2 hseen0]
      rw [count_eq_one_of_nodup_mem hfresh.2 hidS]
      rfl
    have hseen2 : ∀ id ∈ seen ++
        tcsIds (naChunks naInit (script (iterThinkP cfg script callNo).2)).1,
        ∃ k, k < (iterThinkP cfg script callNo).2 + 1 ∧ id ∈ chunkToolIds (script k) := by
      intro id hm
      rcases List.mem_append.1 hm with hm | hm
      · obtain ⟨k, hk, hkc⟩ := hseen id hm
        exact ⟨k, Nat.lt_succ_of_le (le_trans (Nat.le_of_lt hk)
          (iterThinkP_le cfg script callNo)), hkc⟩
      · exact ⟨(iterThinkP cfg script callNo).2, Nat.lt_succ_self _, (hfresh.1 id hm).2⟩
    unfold runIters
    dsimp only
    split
    · simp only [List.cons_append, List.append_assoc, List.foldl_cons, List.foldl_append,
        List.foldl_nil, tcsStep_is, tcsStep_ie]
      rw [foldl_tcs_no_tr _ (iterThinkP_trIds cfg script callNo)]
      dsimp only
      rw [iterThinkP_tcsIds, List.append_nil]
      rw [foldl_tcs_no_tr _ (naChunks_trIds (script (iterThinkP cfg script callNo).2) naInit)]
    · split <;>
        (simp only [List.cons_append, List.append_assoc, List.foldl_cons, List.foldl_append,
          List.foldl_nil, tcsStep_is, tcsStep_ie]
         rw [foldl_tcs_no_tr _ (iterThinkP_trIds cfg script callNo)]
         dsimp only
         rw [iterThinkP_tcsIds, List.append_nil]
         rw [foldl_tcs_no_tr _ (naChunks_trIds (script (iterThinkP cfg script callNo).2) naInit)]
         dsimp only
         rw [foldl_tcs_no_tcs _ (tcsIds_execPhase _ _ _ _)]
         dsimp only
         rw [List.all_eq_true.2 hcount])
      · rfl
      · exact ih (iter + 1) ((iterThinkP cfg script callNo).2 + 1)
          (seen ++ tcsIds (naChunks naInit (script (iterThinkP cfg script callNo).2)).1) hseen2

/-- C2: in every turn of `Agent.chatStream` whose model invocations carry
pairwise-disjoint tool-call ids, every `tool_result` event is preceded by
exactly one `tool_call_start` event with the same call id, and the
`tool_result` events appear in the original issuance order of the calls
(their id sequence is an in-order subsequence of the `tool_call_start` id
sequence), for parallel and serial execution alike. -/
theorem c2_tool_result_pairing (cfg : AgentCfg) (script : Nat → List Chunk) (tool : ToolFn)
    (hdisj : ∀ i j : Nat, i ≠ j → ∀ id, id ∈ chunkToolIds (script i) →
      id ∉ chunkToolIds (script j)) :
    tcsBeforeTrOk (agentChatStream cfg script tool) = true ∧
    isSubseqB (trIds (agentChatStream cfg script tool))
      (tcsIds (agentChatStream cfg script tool)) = true := by
  constructor
  · unfold tcsBeforeTrOk agentChatStream
    dsimp only
    rw [List.foldl_append, List.foldl_cons, tcsStep_complete, List.foldl_nil]
    exact runIters_tcsOk cfg script tool hdisj cfg.maxIterations 0 0 []
      (by intro id h; exact absurd h (List.not_mem_nil id))
  · unfold agentChatStream
    dsimp only
    apply isSubseqB_of_sublist
    rw [trIds_append, tcsIds_append, trIds_cons_complete, tcsIds_cons_complete]
    simp only [trIds_nil, tcsIds_nil, List.append_nil]
    exact runIters_sublist cfg script tool cfg.maxIterations 0 0

/-- Witness for C2: the two-call script issues ids `a`, `b` on its first
invocation only, so its invocations are id-disjoint, and C2's conclusions
hold for the resulting turn. -/
theorem c2_witness :
    tcsBeforeTrOk (agentChatStream cfgTwo scriptTwoCalls toolAlwaysOk) = true ∧
    isSubseqB (trIds (agentChatStream cfgTwo scriptTwoCalls toolAlwaysOk))
      (tcsIds (agentChatStream cfgTwo scriptTwoCalls toolAlwaysOk)) = true :=
  c2_tool_result_pairing cfgTwo scriptTwoCalls toolAlwaysOk (by
    intro i j hij id hi
    unfold scriptTwoCalls at hi ⊢
    by_cases h0 : i = 0
    · subst h0
      have hj : (j == 0) = false := by
        cases j with
        | zero => exact absurd rfl hij
        | succ m => rfl
      rw [hj]
      simp [chunkToolIds, chunkIds]
    · have hi0 : (i == 0) = false := by
        cases i with
        | zero => exact absurd rfl h0
        | succ m => rfl
      rw [hi0] at hi
      simp [chunkToolIds, chunkIds] at hi)

theorem thinkDeltaConcat_append (a b : List Ev) :
    thinkDeltaConcat (a ++ b) = thinkDeltaConcat a ++ thinkDeltaConcat b := by
  simp [thinkDeltaConcat]

theorem textDeltaConcat_append (a b : List Ev) :
    textDeltaConcat (a ++ b) = textDeltaConcat a ++ textDeltaConcat b := by
  simp [textDeltaConcat]

theorem pbChunks_cons (st : PBState) (c : Chunk) (cs : List Chunk) :
    pbChunks st (c :: cs) =
      ((pbChunk st c).1 ++ (pbChunks (pbChunk st c).2 cs).1,
       (pbChunks (pbChunk st c).2 cs).2) := rfl

theorem pbChunks_append (a b : List Chunk) : ∀ st,
    pbChunks st (a ++ b) =
      ((pbChunks st a).1 ++ (pbChunks (pbChunks st a).2 b).1,
       (pbChunks (pbChunks st a).2 b).2) := by
  induction a with
  | nil => intro st; simp [pbChunks]
  | cons c a ih =>
    intro st
    simp [List.cons_append, pbChunks_cons, ih, List.append_assoc]

set_option maxHeartbeats 4000000 in
theorem c8Check_true : c8Check = true := by decide

theorem pbCanonState_zero : pbCanonState 0 = pbInit := by decide

theorem c8_pair (n m : Nat) (h1 : n ≤ m) (h2 : m ≤ 26) : c8CheckPairB n m = true := by
  have h := c8Check_true
  unfold c8Check at h
  rw [Bool.and_eq_true] at h
  have h3 := List.all_eq_true.1 h.2 m (List.mem_range.2 (Nat.lt_succ_of_le h2))
  exact List.all_eq_true.1 h3 n (List.mem_range.2 (Nat.lt_succ_of_le h1))

theorem c8_pair_props (n m : Nat) (h1 : n ≤ m) (h2 : m ≤ 26) :
    (pbFeedText (pbCanonState n) (pbSeg n m)).2 = pbCanonState m ∧
    (pbCanonEvts n).countP isThinkingStartEv + (pbSegEvts n m).countP isThinkingStartEv =
      (pbCanonEvts m).countP isThinkingStartEv ∧
    (pbCanonEvts n).countP isThinkingEndEv + (pbSegEvts n m).countP isThinkingEndEv =
      (pbCanonEvts m).countP isThinkingEndEv ∧
    thinkDeltaConcat (pbCanonEvts n) ++ thinkDeltaConcat (pbSegEvts n m) =
      thinkDeltaConcat (pbCanonEvts m) ∧
    textDeltaConcat (pbCanonEvts n) ++ textDeltaConcat (pbSegEvts n m) =
      textDeltaConcat (pbCanonEvts m) ∧
    (pbSegEvts n m).foldl noThinkAfterTextStep
        ((pbCanonEvts n).foldl noThinkAfterTextStep (false, true)) =
      (pbCanonEvts m).foldl noThinkAfterTextStep (false, true) := by
  have h := c8_pair n m h1 h2
  unfold c8CheckPairB at h
  simp only [Bool.and_eq_true, decide_eq_true_eq] at h
  exact ⟨h.1.1.1.1.1, h.1.1.1.1.2, h.1.1.1.2, h.1.1.2, h.1.2, h.2⟩

theorem pbChunk_textDelta (st : PBState) (d : Str) :
    pbChunk st (Chunk.textDelta d) = pbFeedText st d := rfl

theorem thinkInput_len : thinkRoundTripInput.length = 26 := by decide

theorem c8_fold (fs : List Str) : ∀ n : Nat, n ≤ 26 →
    thinkRoundTripInput.drop n = fs.flatten →
    (pbChunks (pbCanonState n) (fs.map Chunk.textDelta)).2 = pbCanonState 26 ∧
    (pbCanonEvts n).countP isThinkingStartEv +
      (pbChunks (pbCanonState n) (fs.map Chunk.textDelta)).1.countP isThinkingStartEv =
      (pbCanonEvts 26).countP isThinkingStartEv ∧
    (pbCanonEvts n).countP isThinkingEndEv +
      (pbChunks (pbCanonState n) (fs.map Chunk.textDelta)).1.countP isThinkingEndEv =
      (pbCanonEvts 26).countP isThinkingEndEv ∧
    thinkDeltaConcat (pbCanonEvts n) ++
      thinkDeltaConcat (pbChunks (pbCanonState n) (fs.map Chunk.textDelta)).1 =
      thinkDeltaConcat (pbCanonEvts 26) ∧
    textDeltaConcat (pbCanonEvts n) ++
      textDeltaConcat (pbChunks (pbCanonState n) (fs.map Chunk.textDelta)).1 =
      textDeltaConcat (pbCanonEvts 26) ∧
    (pbChunks (pbCanonState n) (fs.map Chunk.textDelta)).1.foldl noThinkAfterTextStep
        ((pbCanonEvts n).foldl noThinkAfterTextStep (false, true)) =
      (pbCanonEvts 26).foldl noThinkAfterTextStep (false, true) := by
  induction fs with
  | nil =>
    intro n hn hdrop
    have h26 : n = 26 := by
      have hl := congrArg List.length hdrop
      rw [List.length_drop, thinkInput_len] at hl
      simp at hl
      omega
    subst h26
    simp [pbChunks, thinkDeltaConcat, textDeltaConcat]
  | cons d fs ih =>
    intro n hn hdrop
    have hl := congrArg List.length hdrop
    rw [List.length_drop, thinkInput_len] at hl
    rw [List.flatten_cons, List.length_append] at hl
    have hm : n + d.length ≤ 26 := by omega
    have hseg : pbSeg n (n + d.length) = d := by
      unfold pbSeg
      rw [hdrop, List.flatten_cons]
      rw [show n + d.length - n = d.length from by omega]
      exact List.take_left _ _
    have hdrop2 : thinkRoundTripInput.drop (n + d.length) = fs.flatten := by
      have hdd : thinkRoundTripInput.drop (n + d.length) =
          (thinkRoundTripInput.drop n).drop d.length := by
        rw [List.drop_drop, Nat.add_comm]
      rw [hdd, hdrop, List.flatten_cons, List.drop_left]
    obtain ⟨hst, h1, h2, h3, h4, h5⟩ := c8_pair_props n (n + d.length) (Nat.le_add_right n _) hm
    unfold pbSegEvts at h1 h2 h3 h4 h5
    rw [hseg] at hst h1 h2 h3 h4 h5
    obtain ⟨ist, i1, i2, i3, i4, i5⟩ := ih (n + d.length) hm hdrop2
    rw [List.map_cons, pbChunks_cons, pbChunk_textDelta, hst]
    dsimp only
    refine ⟨ist, ?_, ?_, ?_, ?_, ?_⟩
    · rw [List.countP_append]
      omega
    · rw [List.countP_append]
      omega
    · rw [thinkDeltaConcat_append, ← List.append_assoc, h3]
      exact i3
    · rw [textDeltaConcat_append, ← List.append_assoc, h4]
      exact i4
    · rw [List.foldl_append, h5]
      exact i5

/-- C8: for every partition of `<think>hello </think>world` into fragments,
feeding the fragments (as `text-delta` chunks, closed by a `finish` chunk)
to the `PromptBasedAgent.chatStream` parser yields exactly one
`thinking_start`, thinking-delta contents concatenating to `hello `,
exactly one `thinking_end`, text-delta contents concatenating to `world`,
and all thinking events before all text events — independently of the
fragment boundaries. -/
theorem c8_fragment_independence (fs : List Str)
    (h : fs.flatten = thinkRoundTripInput) :
    (pbChunks pbInit (fs.map Chunk.textDelta ++ [Chunk.finish])).1.countP isThinkingStartEv =
      1 ∧
    thinkDeltaConcat (pbChunks pbInit (fs.map Chunk.textDelta ++ [Chunk.finish])).1 =
      "hello ".toList ∧
    (pbChunks pbInit (fs.map Chunk.textDelta ++ [Chunk.finish])).1.countP isThinkingEndEv =
      1 ∧
    textDeltaConcat (pbChunks pbInit (fs.map Chunk.textDelta ++ [Chunk.finish])).1 =
      "world".toList ∧
    noThinkAfterText (pbChunks pbInit (fs.map Chunk.textDelta ++ [Chunk.finish])).1 = true := by
  obtain ⟨hst, h1, h2, h3, h4, h5⟩ :=
    c8_fold fs 0 (Nat.zero_le _) (by rw [List.drop_zero, h])
  rw [pbCanonState_zero] at hst h1 h2 h3 h4 h5
  rw [pbChunks_append]
  dsimp only
  rw [hst]
  have e1a : (pbCanonEvts 0).countP isThinkingStartEv = 0 := by decide
  have e1b : (pbCanonEvts 26).countP isThinkingStartEv = 1 := by decide
  have e1c : (pbChunks (pbCanonState 26) [Chunk.finish]).1.countP isThinkingStartEv = 0 := by
    decide
  have e2a : (pbCanonEvts 0).countP isThinkingEndEv = 0 := by decide
  have e2b : (pbCanonEvts 26).countP isThinkingEndEv = 1 := by decide
  have e2c : (pbChunks (pbCanonState 26) [Chunk.finish]).1.countP isThinkingEndEv = 0 := by
    decide
  have e3a : thinkDeltaConcat (pbCanonEvts 0) = [] := by decide
  have e3b : thinkDeltaConcat (pbCanonEvts 26) = "hello ".toList := by decide
  have e3c : thinkDeltaConcat (pbChunks (pbCanonState 26) [Chunk.finish]).1 = [] := by decide
  have e4a : textDeltaConcat (pbCanonEvts 0) = [] := by decide
  have e4b : textDeltaConcat (pbCanonEvts 26) = "world".toList := by decide
  have e4c : textDeltaConcat (pbChunks (pbCanonState 26) [Chunk.finish]).1 = [] := by decide
  have e5a : (pbCanonEvts 0).foldl noThinkAfterTextStep (false, true) = (false, true) := by
    decide
  refine ⟨?_, ?_, ?_, ?_, ?_⟩
  · rw [List.countP_append, e1c]
    omega
  · rw [e3a, List.nil_append] at h3
    rw [thinkDeltaConcat_append, e3c, List.append_nil, h3]
    exact e3b
  · rw [List.countP_append, e2c]
    omega
  · rw [e4a, List.nil_append] at h4
    rw [textDeltaConcat_append, e4c, List.append_nil, h4]
    exact e4b
  · rw [e5a] at h5
    unfold noThinkAfterText
    rw [List.foldl_append, h5]
    decide

/-- Witness for C8: the concrete partition `<thi | nk>hel | lo </think>wor
| ld` concatenates to the round-trip input and C8's conclusions hold for its
feed. -/
theorem c8_witness :
    thinkPartition.flatten = thinkRoundTripInput ∧
    ((pbChunks pbInit (thinkPartition.map Chunk.textDelta ++ [Chunk.finish])).1.countP
        isThinkingStartEv = 1 ∧
      thinkDeltaConcat
          (pbChunks pbInit (thinkPartition.map Chunk.textDelta ++ [Chunk.finish])).1 =
        "hello ".toList ∧
      (pbChunks pbInit (thinkPartition.map Chunk.textDelta ++ [Chunk.finish])).1.countP
        isThinkingEndEv = 1 ∧
      textDeltaConcat
          (pbChunks pbInit (thinkPartition.map Chunk.textDelta ++ [Chunk.finish])).1 =
        "world".toList ∧
      noThinkAfterText
          (pbChunks pbInit (thinkPartition.map Chunk.textDelta ++ [Chunk.finish])).1 = true) :=
  ⟨by decide, c8_fragment_independence thinkPartition (by decide)⟩
